/-
Verification of the frame-processing pipeline of the vehicle-counting
repository (src/core/detector.py, src/core/tracker.py, src/core/counter.py).

Shallow embedding conventions:
  * Python ints are modelled as `Int` (or `Nat` where the source only ever
    holds non-negative values, e.g. track ids and frame counters).
  * Python floats are modelled exactly over `ℚ`; the float literal `1e-6`
    used in the IoU denominator is modelled as `1/1000000`.
  * Python `//` (floor division) is `Int.fdiv`; Python `int(...)` (truncation
    toward zero) is `pyInt`.
  * Python dicts that the code iterates over are modelled as insertion-ordered
    association lists with `alget` / `alset` / `aldel`.
  * `cv2.fillPoly` (mask rasterisation) is kept abstract: functions that may
    regenerate a ROI mask take a `fillPoly` oracle as an explicit argument.
-/
import Mathlib

namespace VC

/-- Insertion-ordered association-list lookup (Python `dict.__getitem__` / `get`). -/
def alget {κ α : Type} [DecidableEq κ] : List (κ × α) → κ → Option α
  | [], _ => none
  | (k, v) :: rest, key => if k = key then some v else alget rest key

/-- Insertion-ordered association-list store (Python `dict.__setitem__`):
replaces the value of an existing key in place, otherwise appends. -/
def alset {κ α : Type} [DecidableEq κ] : List (κ × α) → κ → α → List (κ × α)
  | [], key, v => [(key, v)]
  | (k, w) :: rest, key, v =>
      if k = key then (k, v) :: rest else (k, w) :: alset rest key v

/-- Python `del d[key]` on an insertion-ordered dict. -/
def aldel {κ α : Type} [DecidableEq κ] (l : List (κ × α)) (key : κ) : List (κ × α) :=
  l.filter fun p => decide (p.1 ≠ key)

/-- Python `int(...)` applied to a float: truncation toward zero. -/
def pyInt (q : ℚ) : Int := if 0 ≤ q then ⌊q⌋ else ⌈q⌉

/-- A bounding box in corner form, `[x1, y1, x2, y2]` in the source. -/
structure Box where
  x1 : Int
  y1 : Int
  x2 : Int
  y2 : Int
deriving DecidableEq, Repr

/-- `_calculate_iou` (identical in `SimpleTracker`, `DeepSORTTracker` and
`OptimizedVehicleDetector`): intersection over union with a `1e-6`
denominator guard. -/
def calculate_iou (box1 box2 : Box) : ℚ :=
  let x1 := max box1.x1 box2.x1
  let y1 := max box1.y1 box2.y1
  let x2 := min box1.x2 box2.x2
  let y2 := min box1.y2 box2.y2
  let intersection : ℚ := ((max 0 (x2 - x1) * max 0 (y2 - y1) : Int) : ℚ)
  let area1 : ℚ := (((box1.x2 - box1.x1) * (box1.y2 - box1.y1) : Int) : ℚ)
  let area2 : ℚ := (((box2.x2 - box2.x1) * (box2.y2 - box2.y1) : Int) : ℚ)
  let union := area1 + area2 - intersection
  intersection / (union + 1 / 1000000)

/-- `LineCounter._check_line_crossing` (both in counter.py and detector.py):
sign of the 2-D cross product of the line direction with the point offset. -/
def check_line_crossing (point1 point2 : Int × Int) (point : Int × Int) : Int :=
  let cross := (point2.1 - point1.1) * (point.2 - point1.2)
              - (point2.2 - point1.2) * (point.1 - point1.1)
  if 0 < cross then 1 else if cross < 0 then -1 else 0

/-- A tracked detection as fed to a line counter: the dict
`{'bbox': ..., 'class_name': ..., 'track_id': ...}` (`track_id = -1` when
absent, matching `det.get('track_id', -1)`). -/
structure CDet where
  track_id : Int
  bbox : Box
  class_name : String
deriving DecidableEq, Repr

/-- Per-track entry of `counter.py`'s `LineCounter.tracked_vehicles`. -/
structure CVehicle where
  side : Int
  cls : String
  center : Int × Int
deriving DecidableEq, Repr

/-- State of `counter.py`'s `LineCounter`. -/
structure CounterState where
  point1 : Int × Int
  point2 : Int × Int
  tracked_vehicles : List (Int × CVehicle)
  vehicle_counts : String → String → Nat
  total_crossings : String → Nat

/-- Body of the `for det in detections` loop of `counter.py`'s
`LineCounter.update`, threading the state and the accumulated event list. -/
def lc_step (s : CounterState) (acc : List (String × String)) (det : CDet) :
    CounterState × List (String × String) :=
  if det.track_id = -1 then (s, acc)
  else
    let center := ((det.bbox.x1 + det.bbox.x2).fdiv 2,
                   (det.bbox.y1 + det.bbox.y2).fdiv 2)
    let crossed := check_line_crossing s.point1 s.point2 center
    let fired :=
      match alget s.tracked_vehicles det.track_id with
      | none => none
      | some prev =>
          if crossed ≠ prev.side ∧ crossed ≠ 0 ∧ prev.side ≠ 0 then
            some (det.class_name, if prev.side < crossed then "up" else "down")
          else none
    let s1 :=
      match fired with
      | none => s
      | some (vt, dir) =>
          { s with
            vehicle_counts := fun c d =>
              if c = vt ∧ d = dir then s.vehicle_counts c d + 1
              else s.vehicle_counts c d,
            total_crossings := fun d =>
              if d = dir then s.total_crossings d + 1 else s.total_crossings d }
    let acc1 := match fired with | none => acc | some ev => acc ++ [ev]
    ({ s1 with
        tracked_vehicles := alset s1.tracked_vehicles det.track_id
          ⟨crossed, det.class_name, center⟩ },
     acc1)

/-- `counter.py` `LineCounter.update`: fold `lc_step` over the detections,
returning the final state and the emitted `(class_name, direction)` events. -/
def lc_update (s : CounterState) (dets : List CDet) :
    CounterState × List (String × String) :=
  dets.foldl (fun p det => lc_step p.1 p.2 det) (s, [])

/-- Per-track entry of `detector.py`'s `LineCounter.tracked_vehicles`
(no center is stored in this variant). -/
structure DVehicle where
  side : Int
  cls : String
deriving DecidableEq, Repr

/-- State of `detector.py`'s `LineCounter`. -/
structure DCounterState where
  point1 : Int × Int
  point2 : Int × Int
  tracked_vehicles : List (Int × DVehicle)
  vehicle_counts : String → String → Nat

/-- Body of the detection loop of `detector.py`'s `LineCounter.update`.
Note the crossing guard here is only `crossed != prev_side and crossed != 0`:
unlike counter.py there is no `prev_side != 0` conjunct. -/
def dlc_step (s : DCounterState) (acc : List (String × String)) (det : CDet) :
    DCounterState × List (String × String) :=
  if det.track_id = -1 then (s, acc)
  else
    let center := ((det.bbox.x1 + det.bbox.x2).fdiv 2,
                   (det.bbox.y1 + det.bbox.y2).fdiv 2)
    let crossed := check_line_crossing s.point1 s.point2 center
    let fired :=
      match alget s.tracked_vehicles det.track_id with
      | none => none
      | some prev =>
          if crossed ≠ prev.side ∧ crossed ≠ 0 then
            some (det.class_name, if prev.side < crossed then "up" else "down")
          else none
    let s1 :=
      match fired with
      | none => s
      | some (vt, dir) =>
          { s with vehicle_counts := fun c d =>
              if c = vt ∧ d = dir then s.vehicle_counts c d + 1
              else s.vehicle_counts c d }
    let acc1 := match fired with | none => acc | some ev => acc ++ [ev]
    ({ s1 with
        tracked_vehicles := alset s1.tracked_vehicles det.track_id
          ⟨crossed, det.class_name⟩ },
     acc1)

/-- `detector.py` `LineCounter.update`. -/
def dlc_update (s : DCounterState) (dets : List CDet) :
    DCounterState × List (String × String) :=
  dets.foldl (fun p det => dlc_step p.1 p.2 det) (s, [])

/-- A detection dict as produced by `postprocess_detections`:
`{'bbox': ..., 'confidence': ..., 'class_id': ..., 'class_name': ...}`. -/
structure Det where
  bbox : Box
  confidence : ℚ
  class_id : Nat
  class_name : String
deriving DecidableEq, Repr

/-- Stable descending insertion step by confidence: an element is placed in
front of the first element whose confidence is at most its own, so elements
that come earlier in the original list stay in front of equal-confidence
elements, exactly like Python's stable `sort(key=confidence, reverse=True)`. -/
def insertDesc (x : Det) : List Det → List Det
  | [] => [x]
  | y :: ys => if y.confidence ≤ x.confidence then x :: y :: ys
               else y :: insertDesc x ys

/-- Stable sort by confidence descending
(`detections.sort(key=lambda x: x['confidence'], reverse=True)`). -/
def sortDesc : List Det → List Det
  | [] => []
  | x :: xs => insertDesc x (sortDesc xs)

/-- The `while detections:` loop of `_simple_nms`: pop the front element,
keep it, and drop every remaining detection whose IoU with it is at least
the NMS threshold (the source keeps those with IoU `< nms_threshold`). -/
def nmsLoop (th : ℚ) : List Det → List Det
  | [] => []
  | d :: rest =>
      d :: nmsLoop th (rest.filter fun e => decide (calculate_iou d.bbox e.bbox < th))
termination_by l => l.length
decreasing_by
  simp only [List.length_cons]
  exact Nat.lt_succ_of_le (List.length_filter_le _ _)

/-- `OptimizedVehicleDetector._simple_nms`: early-return lists of length ≤ 1,
otherwise sort by confidence descending (stably) and run the greedy loop. -/
def simple_nms (th : ℚ) (dets : List Det) : List Det :=
  if dets.length ≤ 1 then dets else nmsLoop th (sortDesc dets)

/-- Modelled from the spec (§4.2 step 5), for comparison with `simple_nms`:
"sort remaining boxes by confidence descending; repeatedly take the
highest-confidence remaining box, emit it, and remove every other box whose
IoU with it is ≥ `nms_th`. Ties broken by original descending-confidence
order (stable sort)." -/
def greedyNMS_spec (th : ℚ) (dets : List Det) : List Det :=
  nmsLoop th (sortDesc dets)

/-- Center of a bbox, `((x1+x2)//2, (y1+y2)//2)`. -/
def boxCenter (b : Box) : Int × Int :=
  ((b.x1 + b.x2).fdiv 2, (b.y1 + b.y2).fdiv 2)

/-- Append to a `deque(maxlen=cap)` stored in a defaultdict of trails. -/
def trailAppend (cap : Nat) (trails : List (Nat × List (Int × Int)))
    (track_id : Nat) (pt : Int × Int) : List (Nat × List (Int × Int)) :=
  let old := (alget trails track_id).getD []
  let t := old ++ [pt]
  alset trails track_id (if t.length ≤ cap then t else t.drop (t.length - cap))

/-- Default values standing in for Python expressions that are never reached
(list indexing is always in range in the source loops). -/
def dummyBox : Box := ⟨0, 0, 0, 0⟩

def dummyDet : Det := ⟨dummyBox, 0, 0, ""⟩

/-- A track dict of `SimpleTracker`
(`{'bbox', 'class_name', 'confidence', 'age', 'hits'}`). -/
structure Track where
  bbox : Box
  class_name : String
  confidence : ℚ
  age : Nat
  hits : Nat
deriving DecidableEq, Repr

/-- State of `tracker.py`'s `SimpleTracker` (constructor defaults:
`max_age=10`, `min_hits=1`, `iou_threshold=0.3`; trails `deque(maxlen=20)`). -/
structure STState where
  max_age : Nat
  min_hits : Nat
  iou_threshold : ℚ
  tracks : List (Nat × Track)
  next_id : Nat
  track_trails : List (Nat × List (Int × Int))
deriving DecidableEq, Repr

/-- `SimpleTracker.__init__` with the source's default parameters. -/
def st_init : STState :=
  { max_age := 10, min_hits := 1, iou_threshold := 3 / 10,
    tracks := [], next_id := 1, track_trails := [] }

/-- `SimpleTracker._age_tracks`: increment every age, then delete tracks with
`age > max_age` together with their trails. -/
def st_age (s : STState) : STState :=
  let aged := s.tracks.map fun p => (p.1, { p.2 with age := p.2.age + 1 })
  let removed := (aged.filter fun p => decide (s.max_age < p.2.age)).map Prod.fst
  { s with
      tracks := aged.filter fun p => decide (p.2.age ≤ s.max_age),
      track_trails := s.track_trails.filter fun p => decide (p.1 ∉ removed) }

/-- `SimpleTracker._create_track`: new track under the current `next_id`
(age 0, hits 1), trail updated, and `next_id` incremented. -/
def st_create (s : STState) (det : Det) : STState :=
  let track_id := s.next_id
  { s with
      tracks := alset s.tracks track_id
        ⟨det.bbox, det.class_name, det.confidence, 0, 1⟩,
      track_trails := trailAppend 20 s.track_trails track_id (boxCenter det.bbox),
      next_id := s.next_id + 1 }

/-- `SimpleTracker._update_track`: replace bbox and confidence, reset age,
increment hits, update the trail.  (The `none` branch is unreachable: the
matcher only passes ids that are keys of `tracks`.) -/
def st_update_track (s : STState) (track_id : Nat) (det : Det) : STState :=
  match alget s.tracks track_id with
  | none => s
  | some t =>
      { s with
          tracks := alset s.tracks track_id
            { t with bbox := det.bbox, confidence := det.confidence,
                     age := 0, hits := t.hits + 1 },
          track_trails := trailAppend 20 s.track_trails track_id
            (boxCenter det.bbox) }

/-- The IoU matrix `iou_matrix[i, j]` between existing track boxes and the
frame's detections. -/
def st_iou_matrix (s : STState) (track_ids : List Nat) (dets : List Det) :
    List (List ℚ) :=
  track_ids.map fun tid =>
    let tb := ((alget s.tracks tid).map Track.bbox).getD dummyBox
    dets.map fun det => calculate_iou tb det.bbox

/-- Row-major flattening of a matrix with indices attached. -/
def flatCells (m : List (List ℚ)) : List (ℚ × Nat × Nat) :=
  m.enum.flatMap fun p => p.2.enum.map fun q => (q.2, p.1, q.1)

/-- `np.max` together with `np.unravel_index(np.argmax(...))`: the maximum
cell value and the row-major-first position attaining it. -/
def argmaxCell (cells : List (ℚ × Nat × Nat)) : ℚ × Nat × Nat :=
  match cells with
  | [] => (0, 0, 0)
  | c :: rest => rest.foldl (fun best x => if best.1 < x.1 then x else best) c

/-- `iou_matrix[track_idx, :] = 0; iou_matrix[:, det_idx] = 0`. -/
def zeroRowCol (m : List (List ℚ)) (ti di : Nat) : List (List ℚ) :=
  m.enum.map fun p =>
    p.2.enum.map fun q => if p.1 = ti ∨ q.1 = di then 0 else q.2

/-- The `while True` greedy-assignment loop of
`SimpleTracker._match_detections_to_tracks`, with fuel for termination (the
loop runs at most once per matrix cell whenever `iou_threshold > 0`). -/
def st_matchLoop (thr : ℚ) (track_ids : List Nat) (dets : List Det) :
    Nat → List (List ℚ) → STState → List Nat → STState × List Nat
  | 0, _, s, md => (s, md)
  | fuel + 1, m, s, md =>
      let best := argmaxCell (flatCells m)
      if best.1 < thr then (s, md)
      else
        let ti := best.2.1
        let di := best.2.2
        let s1 := st_update_track s (track_ids.getD ti 0) (dets.getD di dummyDet)
        st_matchLoop thr track_ids dets fuel (zeroRowCol m ti di) s1 (di :: md)

/-- `SimpleTracker._match_detections_to_tracks`: greedy maximum-IoU
assignment followed by creation of tracks for unmatched detections. -/
def st_match (s : STState) (dets : List Det) : STState :=
  let track_ids := s.tracks.map Prod.fst
  let m := st_iou_matrix s track_ids dets
  let r := st_matchLoop s.iou_threshold track_ids dets
            (track_ids.length * dets.length + 1) m s []
  (dets.enum.filter fun p => decide (p.1 ∉ r.2)).foldl
    (fun acc p => st_create acc p.2) r.1

/-- `SimpleTracker._get_confirmed_tracks`: tracks with `hits >= min_hits`,
each tagged with its track id. -/
def st_confirmed (s : STState) : List (Nat × Track) :=
  s.tracks.filterMap fun p =>
    if s.min_hits ≤ p.2.hits then some (p.1, p.2) else none

/-- `SimpleTracker.update`. -/
def st_update (s : STState) (dets : List Det) : List (Nat × Track) × STState :=
  let s1 := st_age s
  if dets.isEmpty then (st_confirmed s1, s1)
  else
    let s2 := if s1.tracks.isEmpty then dets.foldl st_create s1
              else st_match s1 dets
    (st_confirmed s2, s2)

/-- A track dict of `DeepSORTTracker` (`{'detection', 'age', 'hits'}`). -/
structure DTrack where
  detection : Det
  age : Nat
  hits : Nat
deriving DecidableEq, Repr

/-- A detection dict after the tracker added `det['track_id']`. -/
structure TrackedDet where
  det : Det
  track_id : Nat
deriving DecidableEq, Repr

/-- State of `detector.py`'s `DeepSORTTracker` (hard-coded parameters
`max_age=1`, `min_hits=3`, `iou_threshold=0.3`; trails `deque(maxlen=30)`). -/
structure DSState where
  tracks : List (Nat × DTrack)
  next_id : Nat
  track_trails : List (Nat × List (Int × Int))
  last_detections : List TrackedDet
deriving DecidableEq, Repr

def ds_max_age : Nat := 1

def ds_min_hits : Nat := 3

def ds_iou_threshold : ℚ := 3 / 10

/-- `DeepSORTTracker.__init__`. -/
def ds_init : DSState :=
  { tracks := [], next_id := 1, track_trails := [], last_detections := [] }

/-- The aging prologue of `DeepSORTTracker.update`: increment every age and
delete tracks (and their trails) with `age > max_age`. -/
def ds_age (s : DSState) : DSState :=
  let aged := s.tracks.map fun p => (p.1, { p.2 with age := p.2.age + 1 })
  let removed := (aged.filter fun p => decide (ds_max_age < p.2.age)).map Prod.fst
  { s with
      tracks := aged.filter fun p => decide (p.2.age ≤ ds_max_age),
      track_trails := s.track_trails.filter fun p => decide (p.1 ∉ removed) }

/-- `DeepSORTTracker._create_track`. -/
def ds_create (s : DSState) (det : Det) : DSState :=
  { s with
      tracks := alset s.tracks s.next_id ⟨det, 0, 1⟩,
      next_id := s.next_id + 1 }

/-- Lexicographic order on `(cost, track_idx, det_idx)` triples, matching
Python's sort of tuples. -/
def lexLe (a b : ℚ × Nat × Nat) : Prop :=
  a.1 < b.1 ∨ (a.1 = b.1 ∧ (a.2.1 < b.2.1 ∨ (a.2.1 = b.2.1 ∧ a.2.2 ≤ b.2.2)))

instance (a b : ℚ × Nat × Nat) : Decidable (lexLe a b) := by
  unfold lexLe; infer_instance

def insertLex (x : ℚ × Nat × Nat) : List (ℚ × Nat × Nat) → List (ℚ × Nat × Nat)
  | [] => [x]
  | y :: ys => if lexLe x y then x :: y :: ys else y :: insertLex x ys

/-- `matches.sort()` on `(cost, track_idx, det_idx)` tuples. -/
def sortLex : List (ℚ × Nat × Nat) → List (ℚ × Nat × Nat)
  | [] => []
  | x :: xs => insertLex x (sortLex xs)

/-- `DeepSORTTracker._match_tracks`: build all `(cost, i, j)` pairs with
`cost < 1 - iou_threshold` (cost = 1 - IoU), sort them, assign greedily
skipping already-matched rows/columns, then create tracks for unmatched
detections. -/
def ds_match (s : DSState) (dets : List Det) : DSState :=
  let track_ids := s.tracks.map Prod.fst
  let cost := fun i j =>
    let tb := ((alget s.tracks (track_ids.getD i 0)).map
                fun t => t.detection.bbox).getD dummyBox
    1 - calculate_iou tb (dets.getD j dummyDet).bbox
  let cand := (List.range track_ids.length).flatMap fun i =>
    (List.range dets.length).filterMap fun j =>
      if cost i j < 1 - ds_iou_threshold then some (cost i j, i, j) else none
  let assign := (sortLex cand).foldl
    (fun (acc : DSState × List Nat × List Nat) m =>
      if m.2.1 ∉ acc.2.1 ∧ m.2.2 ∉ acc.2.2 then
        let track_id := track_ids.getD m.2.1 0
        match alget acc.1.tracks track_id with
        | none => acc
        | some t =>
            ({ acc.1 with
                tracks := alset acc.1.tracks track_id
                  ⟨dets.getD m.2.2 dummyDet, 0, t.hits + 1⟩ },
             m.2.1 :: acc.2.1, m.2.2 :: acc.2.2)
      else acc)
    (s, [], [])
  (dets.enum.filter fun p => decide (p.1 ∉ assign.2.2)).foldl
    (fun acc p => ds_create acc p.2) assign.1

/-- The output loop of `DeepSORTTracker.update`: emit every track with
`hits >= min_hits` tagged with its id, update those trails, and remember the
emitted list as `last_detections`. -/
def ds_emit (s : DSState) : List TrackedDet × DSState :=
  let emitted := s.tracks.filterMap fun p =>
    if ds_min_hits ≤ p.2.hits then some (⟨p.2.detection, p.1⟩ : TrackedDet)
    else none
  let trails := s.tracks.foldl
    (fun tr p =>
      if ds_min_hits ≤ p.2.hits then
        trailAppend 30 tr p.1 (boxCenter p.2.detection.bbox)
      else tr)
    s.track_trails
  (emitted, { s with track_trails := trails, last_detections := emitted })

/-- `DeepSORTTracker.update`: age, then on an empty detection list return
`last_detections` unchanged; otherwise match (or create, if there are no
live tracks) and emit. -/
def ds_update (s : DSState) (dets : List Det) : List TrackedDet × DSState :=
  let s1 := ds_age s
  if dets.isEmpty then (s1.last_detections, s1)
  else
    let s2 := if s1.tracks.isEmpty then dets.foldl ds_create s1
              else ds_match s1 dets
    ds_emit s2

/-- The confirmed-track view of a `DeepSORTTracker` state: every track with
`hits >= min_hits`, tagged with its id (what the emit loop produces). -/
def ds_confirmed (s : DSState) : List TrackedDet :=
  s.tracks.filterMap fun p =>
    if ds_min_hits ≤ p.2.hits then some (⟨p.2.detection, p.1⟩ : TrackedDet)
    else none

/-- An abstract binary ROI mask: its shape `(mh, mw)` (`mask.shape[:2]`) and
its pixel values, indexed as `mask[row, col]`. -/
structure Mask where
  mh : Int
  mw : Int
  val : Int → Int → Nat

/-- ROI-related fields of `OptimizedVehicleDetector`. -/
structure RoiState where
  use_roi : Bool
  roi_mask : Option Mask
  roi_points : List (Int × Int)
  roi_original_shape : Option (Int × Int)
  current_frame_shape : Option (Int × Int)
  roi_scale_factor : ℚ × ℚ

/-- Detector configuration fields used by `postprocess_detections`
(defaults: input 416×416, `conf_threshold=0.25`, `nms_threshold=0.5`). -/
structure DetCfg where
  input_h : Int
  input_w : Int
  conf_threshold : ℚ
  nms_threshold : ℚ

def default_cfg : DetCfg := ⟨416, 416, 1 / 4, 1 / 2⟩

/-- `self.vehicle_classes = {2: 'car', 3: 'motorcycle', 5: 'bus', 7: 'truck'}`:
the key list. -/
def vehicle_class_ids : List Nat := [2, 3, 5, 7]

/-- Lookup in the `vehicle_classes` dict (only ever applied to keys that
passed the `np.isin` filter). -/
def vehicle_classes (c : Nat) : String :=
  if c = 2 then "car" else if c = 3 then "motorcycle"
  else if c = 5 then "bus" else if c = 7 then "truck" else ""

/-- `np.sum(mask)` over the mask's own shape. -/
def maskSum (m : Mask) : Nat :=
  ((List.range m.mh.toNat).map fun r =>
    ((List.range m.mw.toNat).map fun c => m.val r c).sum).sum

/-- `OptimizedVehicleDetector._create_roi_mask`, with `cv2.fillPoly` kept
abstract as the `fillPoly` oracle: the mask is first zeroed, then (for ≥ 3
points) filled; the call succeeds iff ≥ 3 points were given and the resulting
mask has a nonzero pixel.  The (possibly all-zero) mask is written to the
state even when the call reports failure, exactly as in the source. -/
def create_roi_mask (fillPoly : List (Int × Int) → Int × Int → (Int → Int → Nat))
    (points : List (Int × Int)) (shape : Int × Int) : Mask × Bool :=
  if points.length < 3 then (⟨shape.1, shape.2, fun _ _ => 0⟩, false)
  else
    let m : Mask := ⟨shape.1, shape.2, fillPoly points shape⟩
    (m, decide (maskSum m ≠ 0))

/-- `OptimizedVehicleDetector._update_roi_for_frame_shape`: when the frame
shape drifted more than 5 pixels from the shape the ROI was built for, the
stored points are rescaled proportionally (`int(x*scale)`, then clamped) and
the mask is regenerated; on regeneration failure `_reset_roi` disables the
ROI (`roi_points` is kept).  Returns the updated state and the success flag. -/
def update_roi_for_frame_shape
    (fillPoly : List (Int × Int) → Int × Int → (Int → Int → Nat))
    (roi : RoiState) (shape : Int × Int) : RoiState × Bool :=
  match roi.roi_original_shape with
  | none => (roi, true)
  | some orig =>
      if roi.use_roi = false ∨ roi.roi_points = [] then (roi, true)
      else
        let ch := shape.1
        let cw := shape.2
        if 5 < (ch - orig.1).natAbs ∨ 5 < (cw - orig.2).natAbs then
          let scale_x : ℚ := (cw : ℚ) / (orig.2 : ℚ)
          let scale_y : ℚ := (ch : ℚ) / (orig.1 : ℚ)
          let scaled := roi.roi_points.map fun p =>
            (max 0 (min (pyInt ((p.1 : ℚ) * scale_x)) (cw - 1)),
             max 0 (min (pyInt ((p.2 : ℚ) * scale_y)) (ch - 1)))
          let r := create_roi_mask fillPoly scaled shape
          if r.2 then
            ({ roi with roi_mask := some r.1, roi_original_shape := some shape,
                        roi_points := scaled, current_frame_shape := some shape,
                        roi_scale_factor := (scale_x, scale_y) }, true)
          else
            ({ roi with roi_mask := none, use_roi := false,
                        roi_original_shape := none, current_frame_shape := none,
                        roi_scale_factor := (1, 1) }, false)
        else ({ roi with current_frame_shape := some shape }, true)

/-- A decoded candidate box in center form (`x_center, y_center, width,
height`, model-input coordinates). -/
structure CBox where
  xc : ℚ
  yc : ℚ
  bw : ℚ
  bh : ℚ
deriving DecidableEq, Repr

/-- A candidate after confidence/class filtering, before scaling. -/
structure Cand where
  box : CBox
  conf : ℚ
  cls : Nat
deriving DecidableEq, Repr

/-- `np.argmax` over a row: first index attaining the maximum. -/
def argmaxList (l : List ℚ) : Nat :=
  match l.enum with
  | [] => 0
  | c :: rest => (rest.foldl (fun best x => if best.2 < x.2 then x else best) c).1

/-- The tensor-decoding prefix of `postprocess_detections`: keep rows with
objectness `> conf_threshold` (column 4), compute `argmax` of the class
scores (columns 5..), and keep vehicle classes only. -/
def decode (cfg : DetCfg) (rows : List (List ℚ)) : List Cand :=
  let confident := rows.filter fun r => decide (cfg.conf_threshold < r.getD 4 0)
  let withCls := confident.map fun r => (r, argmaxList (r.drop 5))
  let veh := withCls.filter fun p => decide (p.2 ∈ vehicle_class_ids)
  veh.map fun p =>
    ⟨⟨p.1.getD 0 0, p.1.getD 1 0, p.1.getD 2 0, p.1.getD 3 0⟩, p.1.getD 4 0, p.2⟩

/-- Center-form to corner-form conversion, scaling to frame pixels
(`int(...)` truncation) and clamping each coordinate into the frame. -/
def scaleClampBox (cfg : DetCfg) (oh ow : Int) (b : CBox) : Box :=
  let h_scale : ℚ := (oh : ℚ) / (cfg.input_h : ℚ)
  let w_scale : ℚ := (ow : ℚ) / (cfg.input_w : ℚ)
  let x1 := pyInt ((b.xc - b.bw / 2) * w_scale)
  let y1 := pyInt ((b.yc - b.bh / 2) * h_scale)
  let x2 := pyInt ((b.xc + b.bw / 2) * w_scale)
  let y2 := pyInt ((b.yc + b.bh / 2) * h_scale)
  ⟨max 0 (min x1 (ow - 1)), max 0 (min y1 (oh - 1)),
   max 0 (min x2 (ow - 1)), max 0 (min y2 (oh - 1))⟩

/-- The five `bbox_points` sampled by the ROI filter in
`postprocess_detections`: center, top-left, bottom-right, top-center and
bottom-center of the box. -/
def roi_sample_points (b : Box) : List (Int × Int) :=
  [boxCenter b, (b.x1, b.y1), (b.x2, b.y2),
   ((b.x1 + b.x2).fdiv 2, b.y1), ((b.x1 + b.x2).fdiv 2, b.y2)]

/-- Modelled from the spec (§4.3), for comparison with `roi_sample_points`:
"5 sampled points (box center, and all four corners)". -/
def roi_sample_points_spec (b : Box) : List (Int × Int) :=
  [boxCenter b, (b.x1, b.y1), (b.x2, b.y1), (b.x1, b.y2), (b.x2, b.y2)]

/-- `points_in_roi`: how many of the given `(px, py)` points fall inside the
mask (in bounds and with a positive mask value). -/
def points_in_roi (m : Mask) (pts : List (Int × Int)) : Nat :=
  pts.countP fun p =>
    decide (0 ≤ p.2 ∧ p.2 < m.mh ∧ 0 ≤ p.1 ∧ p.1 < m.mw ∧ 0 < m.val p.2 p.1)

/-- The main `for i in range(len(boxes))` loop of `postprocess_detections`:
scale/clamp the box, apply the ROI majority vote (≥ 3 of 5 points) when the
mask shape matches the frame, regenerate the mask at frame shape on a
mismatch (when ≥ 3 ROI points are stored — the regenerated mask replaces the
stored one for the rest of the loop), skip boxes with area < 500, and emit
the detection dict.  Returns the detections and the final mask. -/
def roiDecision (fillPoly : List (Int × Int) → Int × Int → (Int → Int → Nat))
    (roi : RoiState) (oh ow : Int) (mask : Option Mask) (b : Box) :
    Option Mask × Bool :=
  match mask, roi.use_roi with
  | some mk, true =>
      if (mk.mh, mk.mw) = (oh, ow) then
        (some mk, decide (3 ≤ points_in_roi mk (roi_sample_points b)))
      else
        if 3 ≤ roi.roi_points.length then
          (some (create_roi_mask fillPoly roi.roi_points (oh, ow)).1, true)
        else (some mk, true)
  | mk, _ => (mk, true)

def postLoop (fillPoly : List (Int × Int) → Int × Int → (Int → Int → Nat))
    (cfg : DetCfg) (roi : RoiState) (oh ow : Int) :
    Option Mask → List Cand → List Det × Option Mask
  | mask, [] => ([], mask)
  | mask, c :: rest =>
      let b := scaleClampBox cfg oh ow c.box
      let rd := roiDecision fillPoly roi oh ow mask b
      if rd.2 = false then postLoop fillPoly cfg roi oh ow rd.1 rest
      else if (b.x2 - b.x1) * (b.y2 - b.y1) < 500 then
        postLoop fillPoly cfg roi oh ow rd.1 rest
      else
        let r := postLoop fillPoly cfg roi oh ow rd.1 rest
        (⟨b, c.conf, c.cls, vehicle_classes c.cls⟩ :: r.1, r.2)

/-- `OptimizedVehicleDetector.postprocess_detections`: optional pre-loop ROI
update, decode, the main loop, and NMS when more than one detection remains.
Returns the detections and the ROI state as left behind by the call. -/
def postprocess_detections
    (fillPoly : List (Int × Int) → Int × Int → (Int → Int → Nat))
    (cfg : DetCfg) (roi0 : RoiState) (rows : List (List ℚ)) (oh ow : Int) :
    List Det × RoiState :=
  let roi := if roi0.use_roi then (update_roi_for_frame_shape fillPoly roi0 (oh, ow)).1
             else roi0
  let cands := decode cfg rows
  let r := postLoop fillPoly cfg roi oh ow roi.roi_mask cands
  let dets := if 1 < r.1.length then simple_nms cfg.nms_threshold r.1 else r.1
  (dets, { roi with roi_mask := r.2 })

/-- View of a tracked detection as the dict fed to a line counter
(`track_id` is present, so `det.get('track_id', -1)` returns the real id). -/
def toCDet (td : TrackedDet) : CDet :=
  ⟨(td.track_id : Int), td.det.bbox, td.det.class_name⟩

/-- `self.vehicle_counts[vehicle_type][direction] += 1` folded over a list of
crossing events. -/
def bumpCounts (vc : String → String → Nat) (evs : List (String × String)) :
    String → String → Nat :=
  evs.foldl
    (fun f ev c d => if c = ev.1 ∧ d = ev.2 then f c d + 1 else f c d) vc

/-- The per-frame mutable state of `OptimizedVehicleDetector` that
`detect_vehicles` reads and writes (model, inference and FPS bookkeeping are
external to the pipeline logic). -/
structure DetectorState where
  cfg : DetCfg
  frame_skip : Nat
  frame_counter : Nat
  tracker : DSState
  roi : RoiState
  line_counters : List DCounterState
  vehicle_counts : String → String → Nat

/-- `OptimizedVehicleDetector.detect_vehicles`.  The inference call is the
external oracle `infer` (producing `output[0]`, the raw rows handed to
`postprocess_detections`); it is a thunk, forced only on non-skipped frames.
On a skipped frame (`frame_counter % frame_skip != 0` after the increment)
the function returns `self.tracker.get_last_detections()` and touches
nothing but the frame counter. -/
def detect_vehicles
    (fillPoly : List (Int × Int) → Int × Int → (Int → Int → Nat))
    (infer : Unit → List (List ℚ)) (s : DetectorState)
    (frame_shape : Int × Int) : List TrackedDet × DetectorState :=
  let fc := s.frame_counter + 1
  if fc % s.frame_skip ≠ 0 then
    (s.tracker.last_detections, { s with frame_counter := fc })
  else
    let rows := infer ()
    let post := postprocess_detections fillPoly s.cfg s.roi rows
                  frame_shape.1 frame_shape.2
    let upd := ds_update s.tracker post.1
    let lcr := s.line_counters.map fun lc => dlc_update lc (upd.1.map toCDet)
    let vc := lcr.foldl (fun f r => bumpCounts f r.2) s.vehicle_counts
    (upd.1,
     { s with frame_counter := fc, tracker := upd.2, roi := post.2,
              line_counters := lcr.map Prod.fst, vehicle_counts := vc })

/-! ## Claim C4: IoU symmetry, bounds and self-IoU -/

lemma iou_aux (I A1 A2 : Int) (h0 : 0 ≤ I) (h1 : I ≤ A1) (h2 : I ≤ A2) :
    0 ≤ (I : ℚ) / ((A1 : ℚ) + (A2 : ℚ) - (I : ℚ) + 1 / 1000000) ∧
    (I : ℚ) / ((A1 : ℚ) + (A2 : ℚ) - (I : ℚ) + 1 / 1000000) ≤ 1 := by
  have hI : (0 : ℚ) ≤ (I : ℚ) := by exact_mod_cast h0
  have hA1 : (I : ℚ) ≤ (A1 : ℚ) := by exact_mod_cast h1
  have hA2 : (I : ℚ) ≤ (A2 : ℚ) := by exact_mod_cast h2
  have hden : (0 : ℚ) < (A1 : ℚ) + (A2 : ℚ) - (I : ℚ) + 1 / 1000000 := by linarith
  refine ⟨div_nonneg hI hden.le, ?_⟩
  rw [div_le_one hden]
  linarith

/-- C4, amended.  The claim's symmetry and `0 ≤ iou ≤ 1` parts hold for all
boxes with nonnegative width and height; but `iou(a,a)` is not `1`: because
of the `1e-6` guard in the denominator it equals `A / (A + 1e-6)` for the
box's area `A`, which is strictly below `1` (and `0` for a degenerate box). -/
theorem C4_iou_amended (a b : Box)
    (ha1 : a.x1 ≤ a.x2) (ha2 : a.y1 ≤ a.y2)
    (hb1 : b.x1 ≤ b.x2) (hb2 : b.y1 ≤ b.y2) :
    calculate_iou a b = calculate_iou b a ∧
    0 ≤ calculate_iou a b ∧ calculate_iou a b ≤ 1 ∧
    calculate_iou a a = (((a.x2 - a.x1) * (a.y2 - a.y1) : Int) : ℚ) /
      ((((a.x2 - a.x1) * (a.y2 - a.y1) : Int) : ℚ) + 1 / 1000000) ∧
    calculate_iou a a < 1 := by
  have hsymm : calculate_iou a b = calculate_iou b a := by
    simp only [calculate_iou]
    rw [max_comm a.x1 b.x1, max_comm a.y1 b.y1,
        min_comm a.x2 b.x2, min_comm a.y2 b.y2]
    ring_nf
  have hiw0 : (0 : Int) ≤ max 0 (min a.x2 b.x2 - max a.x1 b.x1) := le_max_left _ _
  have hih0 : (0 : Int) ≤ max 0 (min a.y2 b.y2 - max a.y1 b.y1) := le_max_left _ _
  have hiwa : max 0 (min a.x2 b.x2 - max a.x1 b.x1) ≤ a.x2 - a.x1 :=
    max_le (by linarith) (sub_le_sub (min_le_left _ _) (le_max_left _ _))
  have hiha : max 0 (min a.y2 b.y2 - max a.y1 b.y1) ≤ a.y2 - a.y1 :=
    max_le (by linarith) (sub_le_sub (min_le_left _ _) (le_max_left _ _))
  have hiwb : max 0 (min a.x2 b.x2 - max a.x1 b.x1) ≤ b.x2 - b.x1 :=
    max_le (by linarith) (sub_le_sub (min_le_right _ _) (le_max_right _ _))
  have hihb : max 0 (min a.y2 b.y2 - max a.y1 b.y1) ≤ b.y2 - b.y1 :=
    max_le (by linarith) (sub_le_sub (min_le_right _ _) (le_max_right _ _))
  have hI0 : (0 : Int) ≤ max 0 (min a.x2 b.x2 - max a.x1 b.x1) *
      max 0 (min a.y2 b.y2 - max a.y1 b.y1) := mul_nonneg hiw0 hih0
  have hIA : max 0 (min a.x2 b.x2 - max a.x1 b.x1) *
      max 0 (min a.y2 b.y2 - max a.y1 b.y1) ≤ (a.x2 - a.x1) * (a.y2 - a.y1) :=
    mul_le_mul hiwa hiha hih0 (by linarith)
  have hIB : max 0 (min a.x2 b.x2 - max a.x1 b.x1) *
      max 0 (min a.y2 b.y2 - max a.y1 b.y1) ≤ (b.x2 - b.x1) * (b.y2 - b.y1) :=
    mul_le_mul hiwb hihb hih0 (by linarith)
  have hbounds := iou_aux _ _ _ hI0 hIA hIB
  have hA0 : (0 : Int) ≤ (a.x2 - a.x1) * (a.y2 - a.y1) :=
    mul_nonneg (by linarith) (by linarith)
  have hself : calculate_iou a a = (((a.x2 - a.x1) * (a.y2 - a.y1) : Int) : ℚ) /
      ((((a.x2 - a.x1) * (a.y2 - a.y1) : Int) : ℚ) + 1 / 1000000) := by
    simp only [calculate_iou, max_self, min_self]
    rw [max_eq_right (by linarith : (0 : Int) ≤ a.x2 - a.x1),
        max_eq_right (by linarith : (0 : Int) ≤ a.y2 - a.y1)]
    ring_nf
  refine ⟨hsymm, hbounds.1, hbounds.2, hself, ?_⟩
  rw [hself]
  have hAq : (0 : ℚ) ≤ (((a.x2 - a.x1) * (a.y2 - a.y1) : Int) : ℚ) := by
    exact_mod_cast hA0
  rw [div_lt_one (by linarith)]
  linarith

/-- C4, counterexample to the claim as stated: for the concrete box
`[0, 0, 10, 10]` (area 100) the source IoU of the box with itself is
`100 / (100 + 1e-6) ≠ 1`, refuting `iou(a,a) == 1`. -/
theorem C4_iou_self_cex :
    calculate_iou ⟨0, 0, 10, 10⟩ ⟨0, 0, 10, 10⟩ ≠ 1 := by
  norm_num [calculate_iou]

/-- Witness for `C4_iou_amended` at concrete boxes. -/
theorem C4_iou_witness :
    calculate_iou ⟨0, 0, 10, 10⟩ ⟨0, 2, 10, 12⟩ =
      calculate_iou ⟨0, 2, 10, 12⟩ ⟨0, 0, 10, 10⟩ ∧
    0 ≤ calculate_iou ⟨0, 0, 10, 10⟩ ⟨0, 2, 10, 12⟩ :=
  ⟨(C4_iou_amended ⟨0, 0, 10, 10⟩ ⟨0, 2, 10, 12⟩ (by decide) (by decide)
      (by decide) (by decide)).1,
   (C4_iou_amended ⟨0, 0, 10, 10⟩ ⟨0, 2, 10, 12⟩ (by decide) (by decide)
      (by decide) (by decide)).2.1⟩

/-! ## Claim C1: line-crossing events -/

lemma alget_alset_self {κ α : Type} [DecidableEq κ] (l : List (κ × α)) (k : κ) (v : α) :
    alget (alset l k v) k = some v := by
  induction l with
  | nil => simp [alset, alget]
  | cons p rest ih =>
      obtain ⟨k', w⟩ := p
      by_cases h : k' = k
      · simp [alset, alget, h]
      · simp [alset, alget, h, ih]

/-- C1, counterexample to the claim as stated: in `detector.py`'s
`LineCounter` the guard is only `crossed != prev_side and crossed != 0`
(there is no `prev_side != 0` conjunct), so a track whose recorded side is
`0` (exactly on the line) and whose new side is `+1` DOES emit an "up"
crossing event — the claim says such a transition emits no event. -/
theorem C1_zero_to_signed_cex :
    (dlc_update
      ⟨(0, 0), (10, 0), [(1, ⟨0, "car"⟩)], fun _ _ => 0⟩
      [⟨1, ⟨0, 0, 10, 6⟩, "car"⟩]).2 = [("car", "up")] := by
  decide

/-- C1, amended: the claimed behaviour (event iff prior side ≠ 0 ∧ new side
≠ 0 ∧ new ≠ prior; direction "up" iff new > prior; per-class directional
tally +1 per event; new side always stored) is exactly right for
`counter.py`'s `LineCounter`.  `detector.py`'s `LineCounter` has the same
behaviour except that its guard omits `prev_side != 0`: an event fires iff
the new side ≠ 0 and new ≠ prior, so a 0 → signed transition does emit
(necessarily "up" when the new side is `+1` and "down" when `-1`). -/
theorem C1_line_crossing_amended
    (s : CounterState) (t : DCounterState) (det : CDet)
    (prev : CVehicle) (dprev : DVehicle)
    (hid : det.track_id ≠ -1)
    (hprev : alget s.tracked_vehicles det.track_id = some prev)
    (hdprev : alget t.tracked_vehicles det.track_id = some dprev) :
    (((lc_update s [det]).2 =
        if check_line_crossing s.point1 s.point2 (boxCenter det.bbox) ≠ prev.side ∧
           check_line_crossing s.point1 s.point2 (boxCenter det.bbox) ≠ 0 ∧
           prev.side ≠ 0 then
          [(det.class_name,
            if prev.side < check_line_crossing s.point1 s.point2 (boxCenter det.bbox)
            then "up" else "down")]
        else []) ∧
      alget (lc_update s [det]).1.tracked_vehicles det.track_id =
        some ⟨check_line_crossing s.point1 s.point2 (boxCenter det.bbox),
              det.class_name, boxCenter det.bbox⟩ ∧
      ∀ c d, (lc_update s [det]).1.vehicle_counts c d =
        s.vehicle_counts c d + (lc_update s [det]).2.count (c, d)) ∧
    (((dlc_update t [det]).2 =
        if check_line_crossing t.point1 t.point2 (boxCenter det.bbox) ≠ dprev.side ∧
           check_line_crossing t.point1 t.point2 (boxCenter det.bbox) ≠ 0 then
          [(det.class_name,
            if dprev.side < check_line_crossing t.point1 t.point2 (boxCenter det.bbox)
            then "up" else "down")]
        else []) ∧
      alget (dlc_update t [det]).1.tracked_vehicles det.track_id =
        some ⟨check_line_crossing t.point1 t.point2 (boxCenter det.bbox),
              det.class_name⟩ ∧
      ∀ c d, (dlc_update t [det]).1.vehicle_counts c d =
        t.vehicle_counts c d + (dlc_update t [det]).2.count (c, d)) := by
  constructor
  · simp only [lc_update, List.foldl, lc_step, if_neg hid, hprev, boxCenter]
    by_cases hc : check_line_crossing s.point1 s.point2
        ((det.bbox.x1 + det.bbox.x2).fdiv 2, (det.bbox.y1 + det.bbox.y2).fdiv 2) ≠ prev.side ∧
        check_line_crossing s.point1 s.point2
        ((det.bbox.x1 + det.bbox.x2).fdiv 2, (det.bbox.y1 + det.bbox.y2).fdiv 2) ≠ 0 ∧
        prev.side ≠ 0
    · simp only [if_pos hc, alget_alset_self]
      refine ⟨by simp, trivial, ?_⟩
      intro c d
      by_cases h : c = det.class_name ∧
          d = (if prev.side < check_line_crossing s.point1 s.point2
                ((det.bbox.x1 + det.bbox.x2).fdiv 2,
                 (det.bbox.y1 + det.bbox.y2).fdiv 2) then "up" else "down")
      · simp [h, List.count_cons, Prod.ext_iff]
      · have hne : ¬ ((det.class_name,
            (if prev.side < check_line_crossing s.point1 s.point2
                ((det.bbox.x1 + det.bbox.x2).fdiv 2,
                 (det.bbox.y1 + det.bbox.y2).fdiv 2) then "up" else "down")) = (c, d)) := by
          intro he
          rw [Prod.mk.injEq] at he
          exact h ⟨he.1.symm, he.2.symm⟩
        simp only [if_neg h, List.nil_append]
        simp [List.count_cons, hne]
    · simp only [if_neg hc, alget_alset_self]
      exact ⟨trivial, trivial, fun c d => by simp⟩
  · simp only [dlc_update, List.foldl, dlc_step, if_neg hid, hdprev, boxCenter]
    by_cases hc : check_line_crossing t.point1 t.point2
        ((det.bbox.x1 + det.bbox.x2).fdiv 2, (det.bbox.y1 + det.bbox.y2).fdiv 2) ≠ dprev.side ∧
        check_line_crossing t.point1 t.point2
        ((det.bbox.x1 + det.bbox.x2).fdiv 2, (det.bbox.y1 + det.bbox.y2).fdiv 2) ≠ 0
    · simp only [if_pos hc, alget_alset_self]
      refine ⟨by simp, trivial, ?_⟩
      intro c d
      by_cases h : c = det.class_name ∧
          d = (if dprev.side < check_line_crossing t.point1 t.point2
                ((det.bbox.x1 + det.bbox.x2).fdiv 2,
                 (det.bbox.y1 + det.bbox.y2).fdiv 2) then "up" else "down")
      · simp [h, List.count_cons, Prod.ext_iff]
      · have hne : ¬ ((det.class_name,
            (if dprev.side < check_line_crossing t.point1 t.point2
                ((det.bbox.x1 + det.bbox.x2).fdiv 2,
                 (det.bbox.y1 + det.bbox.y2).fdiv 2) then "up" else "down")) = (c, d)) := by
          intro he
          rw [Prod.mk.injEq] at he
          exact h ⟨he.1.symm, he.2.symm⟩
        simp only [if_neg h, List.nil_append]
        simp [List.count_cons, hne]
    · simp only [if_neg hc, alget_alset_self]
      exact ⟨trivial, trivial, fun c d => by simp⟩

/-- Witness for `C1_line_crossing_amended`: a track recorded on side −1
moving to side +1 across the line ((0,0),(10,0)) fires exactly one "up"
event in both line-counter variants. -/
theorem C1_line_crossing_witness :
    (lc_update
      ⟨(0, 0), (10, 0), [(1, ⟨-1, "car", (5, -3)⟩)], fun _ _ => 0, fun _ => 0⟩
      [⟨1, ⟨0, 0, 10, 6⟩, "car"⟩]).2 = [("car", "up")] ∧
    (dlc_update
      ⟨(0, 0), (10, 0), [(1, ⟨-1, "car"⟩)], fun _ _ => 0⟩
      [⟨1, ⟨0, 0, 10, 6⟩, "car"⟩]).2 = [("car", "up")] := by
  have h := C1_line_crossing_amended
    ⟨(0, 0), (10, 0), [(1, ⟨-1, "car", (5, -3)⟩)], fun _ _ => 0, fun _ => 0⟩
    ⟨(0, 0), (10, 0), [(1, ⟨-1, "car"⟩)], fun _ _ => 0⟩
    ⟨1, ⟨0, 0, 10, 6⟩, "car"⟩ ⟨-1, "car", (5, -3)⟩ ⟨-1, "car"⟩
    (by decide) (by decide) (by decide)
  refine ⟨?_, ?_⟩
  · rw [h.1.1]; decide
  · rw [h.2.1]; decide

/-! ## Claims C5 and C6: greedy NMS and its idempotence -/

lemma mem_insertDesc {a x : Det} {l : List Det} :
    a ∈ insertDesc x l ↔ a = x ∨ a ∈ l := by
  induction l with
  | nil => simp [insertDesc]
  | cons y ys ih =>
      by_cases h : y.confidence ≤ x.confidence
      · simp [insertDesc, h]
      · simp only [insertDesc, if_neg h, List.mem_cons, ih]
        tauto

lemma insertDesc_sorted {x : Det} {l : List Det}
    (h : List.Pairwise (fun a b => b.confidence ≤ a.confidence) l) :
    List.Pairwise (fun a b => b.confidence ≤ a.confidence) (insertDesc x l) := by
  induction l with
  | nil => simp [insertDesc]
  | cons y ys ih =>
      rw [List.pairwise_cons] at h
      by_cases hxy : y.confidence ≤ x.confidence
      · simp only [insertDesc, if_pos hxy]
        rw [List.pairwise_cons]
        refine ⟨?_, List.pairwise_cons.mpr h⟩
        intro b hb
        rcases List.mem_cons.mp hb with rfl | hb
        · exact hxy
        · exact le_trans (h.1 b hb) hxy
      · simp only [insertDesc, if_neg hxy]
        rw [List.pairwise_cons]
        refine ⟨?_, ih h.2⟩
        intro b hb
        rcases mem_insertDesc.mp hb with rfl | hb
        · exact le_of_lt (lt_of_not_le hxy)
        · exact h.1 b hb

lemma sortDesc_sorted (l : List Det) :
    List.Pairwise (fun a b => b.confidence ≤ a.confidence) (sortDesc l) := by
  induction l with
  | nil => simp [sortDesc]
  | cons x xs ih => exact insertDesc_sorted ih

lemma sortDesc_eq_of_sorted : ∀ {l : List Det},
    List.Pairwise (fun a b => b.confidence ≤ a.confidence) l → sortDesc l = l := by
  intro l h
  induction l with
  | nil => rfl
  | cons x xs ih =>
      rw [List.pairwise_cons] at h
      rw [sortDesc, ih h.2]
      match xs, h with
      | [], _ => rfl
      | y :: ys, h =>
          have hxy : y.confidence ≤ x.confidence := h.1 y (by simp)
          simp only [insertDesc, if_pos hxy]

lemma nmsLoop_sublist_aux (th : ℚ) :
    ∀ (n : Nat) (l : List Det), l.length ≤ n → List.Sublist (nmsLoop th l) l := by
  intro n
  induction n with
  | zero =>
      intro l h
      have : l = [] := List.length_eq_zero.mp (Nat.le_zero.mp h)
      subst this
      simp [nmsLoop]
  | succ n ih =>
      intro l h
      match l with
      | [] => simp [nmsLoop]
      | d :: rest =>
          rw [nmsLoop]
          refine List.Sublist.cons₂ d ?_
          exact List.Sublist.trans
            (ih _ (le_trans (List.length_filter_le _ rest)
              (Nat.le_of_succ_le_succ h)))
            (List.filter_sublist rest)

lemma nmsLoop_sublist (th : ℚ) (l : List Det) : List.Sublist (nmsLoop th l) l :=
  nmsLoop_sublist_aux th l.length l le_rfl

lemma nmsLoop_compat_aux (th : ℚ) :
    ∀ (n : Nat) (l : List Det), l.length ≤ n →
      List.Pairwise (fun a b => calculate_iou a.bbox b.bbox < th) (nmsLoop th l) := by
  intro n
  induction n with
  | zero =>
      intro l h
      have : l = [] := List.length_eq_zero.mp (Nat.le_zero.mp h)
      subst this
      simp [nmsLoop]
  | succ n ih =>
      intro l h
      match l with
      | [] => simp [nmsLoop]
      | d :: rest =>
          rw [nmsLoop, List.pairwise_cons]
          constructor
          · intro b hb
            have hmem : b ∈ rest.filter
                (fun e => decide (calculate_iou d.bbox e.bbox < th)) :=
              (nmsLoop_sublist th _).subset hb
            have := List.of_mem_filter hmem
            exact of_decide_eq_true this
          · exact ih _ (le_trans (List.length_filter_le _ rest)
              (Nat.le_of_succ_le_succ h))

lemma nmsLoop_compat (th : ℚ) (l : List Det) :
    List.Pairwise (fun a b => calculate_iou a.bbox b.bbox < th) (nmsLoop th l) :=
  nmsLoop_compat_aux th l.length l le_rfl

lemma nmsLoop_eq_of_compat : ∀ {th : ℚ} {l : List Det},
    List.Pairwise (fun a b => calculate_iou a.bbox b.bbox < th) l →
      nmsLoop th l = l := by
  intro th l h
  induction l with
  | nil => simp [nmsLoop]
  | cons d rest ih =>
      rw [List.pairwise_cons] at h
      have hf : rest.filter (fun e => decide (calculate_iou d.bbox e.bbox < th)) = rest := by
        apply List.filter_eq_self.mpr
        intro a ha
        exact decide_eq_true (h.1 a ha)
      rw [nmsLoop, hf, ih h.2]

/-- C5: `_simple_nms` is the greedy NMS algorithm described by the spec —
stable sort by confidence descending, then repeatedly keep the
highest-confidence remaining box and discard every remaining box whose IoU
with it is ≥ the threshold — and in the spec's scenario B (two same-class
boxes with IoU 0.8, threshold 0.5) only the higher-confidence box
survives. -/
theorem C5_nms_is_greedy (th : ℚ) :
    (∀ dets : List Det, simple_nms th dets = greedyNMS_spec th dets) ∧
    simple_nms (1 / 2)
        [⟨⟨0, 0, 10, 10⟩, 9 / 10, 2, "car"⟩, ⟨⟨0, 0, 10, 8⟩, 8 / 10, 2, "car"⟩] =
      [⟨⟨0, 0, 10, 10⟩, 9 / 10, 2, "car"⟩] := by
  constructor
  · intro dets
    rw [simple_nms, greedyNMS_spec]
    by_cases h : dets.length ≤ 1
    · rw [if_pos h]
      rcases dets with _ | ⟨x, _ | ⟨y, r⟩⟩
      · simp [sortDesc, nmsLoop]
      · simp [sortDesc, insertDesc, nmsLoop]
      · simp at h
    · rw [if_neg h]
  · have hiou : calculate_iou ⟨0, 0, 10, 10⟩ ⟨0, 0, 10, 8⟩ = 80 / (100 + 1 / 1000000) := by
      norm_num [calculate_iou]
    rw [simple_nms]
    norm_num [sortDesc, insertDesc, nmsLoop, hiou]

/-- C6: NMS is idempotent — running `_simple_nms` on its own output returns
that output unchanged, for every detection list and threshold. -/
theorem C6_nms_idempotent (th : ℚ) (dets : List Det) :
    simple_nms th (simple_nms th dets) = simple_nms th dets := by
  by_cases h : dets.length ≤ 1
  · have he : simple_nms th dets = dets := by rw [simple_nms, if_pos h]
    rw [he]
    exact he
  · have he : simple_nms th dets = nmsLoop th (sortDesc dets) := by
      rw [simple_nms, if_neg h]
    have hsorted : List.Pairwise (fun a b => b.confidence ≤ a.confidence)
        (nmsLoop th (sortDesc dets)) :=
      List.Pairwise.sublist (nmsLoop_sublist th (sortDesc dets)) (sortDesc_sorted dets)
    have hcompat := nmsLoop_compat th (sortDesc dets)
    rw [he, simple_nms]
    by_cases h2 : (nmsLoop th (sortDesc dets)).length ≤ 1
    · rw [if_pos h2]
    · rw [if_neg h2, sortDesc_eq_of_sorted hsorted, nmsLoop_eq_of_compat hcompat]

/-! ## Claim C3: the ROI majority vote -/

/-- A mask over a 31×31 frame containing exactly the three pixels (0,0),
(30,0) and (0,30) — three of the four box corners of `[0,0,30,30]`, but only
one of the five points the code actually samples. -/
def c3Mask : Mask :=
  ⟨31, 31, fun py px =>
    if (px = 0 ∧ py = 0) ∨ (px = 30 ∧ py = 0) ∨ (px = 0 ∧ py = 30) then 255
    else 0⟩

def c3Roi : RoiState :=
  { use_roi := true, roi_mask := some c3Mask,
    roi_points := [(0, 0), (30, 0), (0, 30)],
    roi_original_shape := some (31, 31),
    current_frame_shape := some (31, 31), roi_scale_factor := (1, 1) }

/-- C3, counterexample to the claim as stated: the code samples the box
center, top-left, bottom-right, top-center and bottom-center — not "the box
center and all four box corners".  For the box `[0,0,30,30]` (area 900) and
a mask containing exactly the corners (0,0), (30,0) and (0,30), three of the
claim's five points lie inside the mask (so the claim says the detection is
kept), yet the region filter rejects it: only one of the code's five sample
points is inside. -/
theorem C3_roi_points_cex :
    3 ≤ points_in_roi c3Mask (roi_sample_points_spec ⟨0, 0, 30, 30⟩) ∧
    ¬ 3 ≤ points_in_roi c3Mask (roi_sample_points ⟨0, 0, 30, 30⟩) ∧
    (postLoop (fun _ _ _ _ => 0) ⟨31, 31, 1 / 4, 1 / 2⟩ c3Roi 31 31
        (some c3Mask) [⟨⟨15, 15, 30, 30⟩, 9 / 10, 2⟩]).1 = [] := by
  refine ⟨by decide, by decide, ?_⟩
  have hb : scaleClampBox ⟨31, 31, 1 / 4, 1 / 2⟩ 31 31 ⟨15, 15, 30, 30⟩ =
      ⟨0, 0, 30, 30⟩ := by
    simp only [scaleClampBox, pyInt]
    norm_num
  rw [postLoop, hb]
  norm_num [c3Roi]
  rw [if_pos (by decide)]
  simp [postLoop]

/-- C3, amended: when the ROI is active and the mask shape equals the frame
shape, the post-processing loop keeps a candidate iff at least 3 of the 5
sampled points lie inside the mask AND the box area is ≥ 500, where the 5
sampled points are the box center, the top-left corner, the bottom-right
corner, the top-edge midpoint and the bottom-edge midpoint (not all four
corners). -/
theorem C3_roi_majority_amended
    (fillPoly : List (Int × Int) → Int × Int → (Int → Int → Nat))
    (cfg : DetCfg) (roi : RoiState) (oh ow : Int) (mk : Mask)
    (cands : List Cand) (hroi : roi.use_roi = true)
    (hshape : mk.mh = oh ∧ mk.mw = ow) :
    (postLoop fillPoly cfg roi oh ow (some mk) cands).1 =
      (cands.filter fun c =>
        decide (3 ≤ points_in_roi mk (roi_sample_points (scaleClampBox cfg oh ow c.box))) &&
        decide (500 ≤ ((scaleClampBox cfg oh ow c.box).x2 - (scaleClampBox cfg oh ow c.box).x1) *
            ((scaleClampBox cfg oh ow c.box).y2 - (scaleClampBox cfg oh ow c.box).y1))).map
        (fun c => ⟨scaleClampBox cfg oh ow c.box, c.conf, c.cls, vehicle_classes c.cls⟩) ∧
    (∀ b : Box, roi_sample_points b =
      [boxCenter b, (b.x1, b.y1), (b.x2, b.y2),
       ((b.x1 + b.x2).fdiv 2, b.y1), ((b.x1 + b.x2).fdiv 2, b.y2)]) := by
  refine ⟨?_, fun b => rfl⟩
  induction cands with
  | nil => simp [postLoop]
  | cons c rest ih =>
      have hrd : roiDecision fillPoly roi oh ow (some mk) (scaleClampBox cfg oh ow c.box) =
          (some mk, decide (3 ≤ points_in_roi mk
            (roi_sample_points (scaleClampBox cfg oh ow c.box)))) := by
        unfold roiDecision
        rw [hroi]
        dsimp only
        rw [if_pos (by rw [hshape.1, hshape.2])]
      rw [postLoop]
      simp only [hrd]
      by_cases hk : 3 ≤ points_in_roi mk (roi_sample_points (scaleClampBox cfg oh ow c.box))
      · rw [if_neg (by simp [hk])]
        by_cases ha : ((scaleClampBox cfg oh ow c.box).x2 - (scaleClampBox cfg oh ow c.box).x1) *
            ((scaleClampBox cfg oh ow c.box).y2 - (scaleClampBox cfg oh ow c.box).y1) < 500
        · rw [if_pos ha, List.filter_cons_of_neg (by simp [hk]; omega), ih]
        · rw [if_neg ha, List.filter_cons_of_pos (by simp [hk]; omega), List.map_cons, ih]
      · rw [if_pos (by simp [hk]), List.filter_cons_of_neg (by simp [hk]), ih]

/-- Witness for `C3_roi_majority_amended`: under an all-255 mask every
sampled point is inside, so a large-enough candidate is kept. -/
theorem C3_roi_majority_witness :
    (postLoop (fun _ _ _ _ => 0) ⟨31, 31, 1 / 4, 1 / 2⟩
        { use_roi := true, roi_mask := some ⟨31, 31, fun _ _ => 255⟩,
          roi_points := [(0, 0), (30, 0), (0, 30)],
          roi_original_shape := some (31, 31),
          current_frame_shape := some (31, 31), roi_scale_factor := (1, 1) }
        31 31 (some ⟨31, 31, fun _ _ => 255⟩)
        [⟨⟨15, 15, 30, 30⟩, 9 / 10, 2⟩]).1 =
      [⟨⟨0, 0, 30, 30⟩, 9 / 10, 2, "car"⟩] := by
  rw [(C3_roi_majority_amended (fun _ _ _ _ => 0) ⟨31, 31, 1 / 4, 1 / 2⟩
        { use_roi := true, roi_mask := some ⟨31, 31, fun _ _ => 255⟩,
          roi_points := [(0, 0), (30, 0), (0, 30)],
          roi_original_shape := some (31, 31),
          current_frame_shape := some (31, 31), roi_scale_factor := (1, 1) }
        31 31 ⟨31, 31, fun _ _ => 255⟩
        [⟨⟨15, 15, 30, 30⟩, 9 / 10, 2⟩] rfl ⟨rfl, rfl⟩).1]
  have hb : scaleClampBox ⟨31, 31, 1 / 4, 1 / 2⟩ 31 31 ⟨15, 15, 30, 30⟩ =
      ⟨0, 0, 30, 30⟩ := by
    simp only [scaleClampBox, pyInt]
    norm_num
  simp only [hb, List.filter_cons, List.filter_nil, List.map_cons, List.map_nil]
  rw [if_pos (by decide)]
  simp only [List.map_cons, List.map_nil, hb]
  rfl

/-! ## Claim C8: ROI mask-shape mismatch fallback -/

/-- A ROI whose mask was built for a 64×60 frame (within the 5-pixel
tolerance of a 60×60 frame) but with ≥ 3 stored points, so the in-loop
regeneration path is taken on a mask/frame mismatch. -/
def c8Roi : RoiState :=
  { use_roi := true, roi_mask := some ⟨64, 60, fun _ _ => 255⟩,
    roi_points := [(0, 0), (50, 0), (0, 50)],
    roi_original_shape := some (64, 60),
    current_frame_shape := some (64, 60), roi_scale_factor := (1, 1) }

/-- C8, counterexample to the claim as stated: with an active ROI whose mask
shape (64×60) does not match the 60×60 frame and whose regeneration fails
(the `fillPoly` oracle produces an all-zero mask, i.e. the polygon cannot be
rasterised), the region filter is NOT a pass-through: the first candidate
passes, but the regenerated all-zero mask now matches the frame shape and
rejects every later candidate.  With the ROI off, the same two candidates
both survive. -/
theorem C8_roi_fallback_cex :
    (postLoop (fun _ _ _ _ => 0) ⟨60, 60, 1 / 4, 1 / 2⟩ c8Roi 60 60
        (some ⟨64, 60, fun _ _ => 255⟩)
        [⟨⟨15, 15, 30, 30⟩, 9 / 10, 2⟩, ⟨⟨45, 45, 30, 30⟩, 8 / 10, 2⟩]).1 =
      [⟨⟨0, 0, 30, 30⟩, 9 / 10, 2, "car"⟩] ∧
    (postLoop (fun _ _ _ _ => 0) ⟨60, 60, 1 / 4, 1 / 2⟩
        { c8Roi with use_roi := false } 60 60 none
        [⟨⟨15, 15, 30, 30⟩, 9 / 10, 2⟩, ⟨⟨45, 45, 30, 30⟩, 8 / 10, 2⟩]).1 =
      [⟨⟨0, 0, 30, 30⟩, 9 / 10, 2, "car"⟩, ⟨⟨30, 30, 59, 59⟩, 8 / 10, 2, "car"⟩] := by
  have hb1 : scaleClampBox ⟨60, 60, 1 / 4, 1 / 2⟩ 60 60 ⟨15, 15, 30, 30⟩ =
      ⟨0, 0, 30, 30⟩ := by
    simp only [scaleClampBox, pyInt]
    norm_num
  have hb2 : scaleClampBox ⟨60, 60, 1 / 4, 1 / 2⟩ 60 60 ⟨45, 45, 30, 30⟩ =
      ⟨30, 30, 59, 59⟩ := by
    simp only [scaleClampBox, pyInt]
    norm_num
  constructor
  · rw [postLoop]
    simp only [hb1]
    rw [show roiDecision (fun _ _ _ _ => 0) c8Roi 60 60
          (some ⟨64, 60, fun _ _ => 255⟩) ⟨0, 0, 30, 30⟩ =
        (some ⟨60, 60, fun _ _ => 0⟩, true) from by
      unfold roiDecision c8Roi create_roi_mask
      norm_num]
    rw [if_neg (by decide), if_neg (by decide)]
    rw [postLoop]
    simp only [hb2]
    rw [show roiDecision (fun _ _ _ _ => 0) c8Roi 60 60
          (some ⟨60, 60, fun _ _ => 0⟩) ⟨30, 30, 59, 59⟩ =
        (some ⟨60, 60, fun _ _ => 0⟩, false) from by
      unfold roiDecision c8Roi
      norm_num [points_in_roi, roi_sample_points, boxCenter]]
    rw [if_pos (by decide)]
    rfl
  · rw [postLoop]
    simp only [hb1]
    rw [show roiDecision (fun _ _ _ _ => 0) { c8Roi with use_roi := false }
          60 60 none ⟨0, 0, 30, 30⟩ = (none, true) from rfl]
    rw [if_neg (by decide), if_neg (by decide)]
    rw [postLoop]
    simp only [hb2]
    rw [show roiDecision (fun _ _ _ _ => 0) { c8Roi with use_roi := false }
          60 60 none ⟨30, 30, 59, 59⟩ = (none, true) from rfl]
    rw [if_neg (by decide), if_neg (by decide)]
    rfl

/-- C8, amended: the claimed pass-through does hold when the mismatched ROI
cannot even attempt regeneration (fewer than 3 stored points): then the
region filter keeps exactly what it would keep with the ROI disabled, and no
exception is possible (the function is total).  When ≥ 3 points are stored,
a mismatch triggers in-loop regeneration at frame shape; if that produces an
empty mask the filter fails closed for the remaining detections
(see `C8_roi_fallback_cex`). -/
theorem C8_roi_fallback_amended
    (fillPoly : List (Int × Int) → Int × Int → (Int → Int → Nat))
    (cfg : DetCfg) (roi : RoiState) (oh ow : Int) (mk : Mask)
    (hroi : roi.use_roi = true) (hmm : ¬ (mk.mh, mk.mw) = (oh, ow))
    (hpts : roi.roi_points.length < 3) :
    ∀ cands : List Cand,
      (postLoop fillPoly cfg roi oh ow (some mk) cands).1 =
        (postLoop fillPoly cfg { roi with use_roi := false } oh ow none cands).1 := by
  intro cands
  induction cands with
  | nil => simp [postLoop]
  | cons c rest ih =>
      have hrd : roiDecision fillPoly roi oh ow (some mk)
          (scaleClampBox cfg oh ow c.box) = (some mk, true) := by
        unfold roiDecision
        rw [hroi]
        dsimp only
        rw [if_neg hmm, if_neg (by omega)]
      have hrd2 : roiDecision fillPoly { roi with use_roi := false } oh ow none
          (scaleClampBox cfg oh ow c.box) = (none, true) := rfl
      rw [postLoop, postLoop]
      simp only [hrd, hrd2]
      rw [if_neg (show ¬ (true = false) from by decide)]
      rw [if_neg (show ¬ (true = false) from by decide)]
      by_cases ha : ((scaleClampBox cfg oh ow c.box).x2 - (scaleClampBox cfg oh ow c.box).x1) *
          ((scaleClampBox cfg oh ow c.box).y2 - (scaleClampBox cfg oh ow c.box).y1) < 500
      · rw [if_pos ha]
        rw [if_pos ha]
        exact ih
      · rw [if_neg ha]
        rw [if_neg ha]
        simp only [ih]

/-- Witness for `C8_roi_fallback_amended`: a two-point ROI with a mismatched
mask passes a large candidate through, exactly as with the ROI off. -/
theorem C8_roi_fallback_witness :
    (postLoop (fun _ _ _ _ => 0) ⟨60, 60, 1 / 4, 1 / 2⟩
        { use_roi := true, roi_mask := some ⟨64, 60, fun _ _ => 255⟩,
          roi_points := [(0, 0), (50, 0)],
          roi_original_shape := some (64, 60),
          current_frame_shape := some (64, 60), roi_scale_factor := (1, 1) }
        60 60 (some ⟨64, 60, fun _ _ => 255⟩)
        [⟨⟨15, 15, 30, 30⟩, 9 / 10, 2⟩]).1 =
      [⟨⟨0, 0, 30, 30⟩, 9 / 10, 2, "car"⟩] := by
  rw [C8_roi_fallback_amended (fun _ _ _ _ => 0) ⟨60, 60, 1 / 4, 1 / 2⟩
        { use_roi := true, roi_mask := some ⟨64, 60, fun _ _ => 255⟩,
          roi_points := [(0, 0), (50, 0)],
          roi_original_shape := some (64, 60),
          current_frame_shape := some (64, 60), roi_scale_factor := (1, 1) }
        60 60 ⟨64, 60, fun _ _ => 255⟩ rfl (by decide) (by decide)
        [⟨⟨15, 15, 30, 30⟩, 9 / 10, 2⟩]]
  have hb1 : scaleClampBox ⟨60, 60, 1 / 4, 1 / 2⟩ 60 60 ⟨15, 15, 30, 30⟩ =
      ⟨0, 0, 30, 30⟩ := by
    simp only [scaleClampBox, pyInt]
    norm_num
  rw [postLoop]
  simp only [hb1]
  rw [show roiDecision (fun _ _ _ _ => 0)
        { use_roi := false, roi_mask := some ⟨64, 60, fun _ _ => 255⟩,
          roi_points := [(0, 0), (50, 0)],
          roi_original_shape := some (64, 60),
          current_frame_shape := some (64, 60),
          roi_scale_factor := ((1 : ℚ), (1 : ℚ)) }
        60 60 none ⟨0, 0, 30, 30⟩ = (none, true) from rfl]
  rw [if_neg (by decide), if_neg (by decide)]
  rfl

/-! ## Claim C2: confirmed-track output -/

lemma mem_st_confirmed (s : STState) (id : Nat) (t : Track) :
    (id, t) ∈ st_confirmed s ↔ (id, t) ∈ s.tracks ∧ s.min_hits ≤ t.hits := by
  simp only [st_confirmed, List.mem_filterMap]
  constructor
  · rintro ⟨⟨a, b⟩, hab, h⟩
    by_cases hh : s.min_hits ≤ b.hits
    · rw [if_pos hh] at h
      cases h
      exact ⟨hab, hh⟩
    · rw [if_neg hh] at h
      cases h
  · rintro ⟨hmem, hh⟩
    exact ⟨(id, t), hmem, by rw [if_pos hh]⟩

/-- The concrete detection used by the C2 counterexample run. -/
def c2d : Det := ⟨⟨0, 0, 30, 30⟩, 9 / 10, 2, "car"⟩

/-- Intermediate `DeepSORTTracker` states of the C2 counterexample run. -/
def c2s1 : DSState :=
  { tracks := [(1, ⟨c2d, 0, 1⟩)], next_id := 2,
    track_trails := [], last_detections := [] }

def c2s2 : DSState :=
  { tracks := [(1, ⟨c2d, 0, 2⟩)], next_id := 2,
    track_trails := [], last_detections := [] }

def c2s3 : DSState :=
  { tracks := [(1, ⟨c2d, 0, 3⟩)], next_id := 2,
    track_trails := [(1, [(15, 15)])], last_detections := [⟨c2d, 1⟩] }

def c2s4 : DSState :=
  { tracks := [(1, ⟨c2d, 1, 3⟩)], next_id := 2,
    track_trails := [(1, [(15, 15)])], last_detections := [⟨c2d, 1⟩] }

def c2s5 : DSState :=
  { tracks := [], next_id := 2,
    track_trails := [], last_detections := [⟨c2d, 1⟩] }

/-- C2, counterexample to the claim as stated: drive `DeepSORTTracker`
(cited by the claim) with the same detection for three frames — confirming
track 1 — and then two empty frames.  The second empty frame ages the track
out (`max_age = 1`), yet `update` still returns the stale `last_detections`
list containing track 1, while the tracker state holds no track at all, so
the returned list is NOT the set of tracks with `hits ≥ min_hits` at the end
of the update. -/
theorem C2_stale_empty_update_cex :
    (ds_update (ds_update (ds_update (ds_update (ds_update ds_init
        [c2d]).2 [c2d]).2 [c2d]).2 []).2 []).1 = [⟨c2d, 1⟩] ∧
    (ds_update (ds_update (ds_update (ds_update (ds_update ds_init
        [c2d]).2 [c2d]).2 [c2d]).2 []).2 []).2.tracks = [] := by
  have hiou : calculate_iou ⟨0, 0, 30, 30⟩ ⟨0, 0, 30, 30⟩ = 900000000 / 900000001 := by
    norm_num [calculate_iou]
  have hc2 : ((3 : ℚ) / 10 < 900000000 / 900000001) = True := by
    norm_num
  have hfd : Int.fdiv 30 2 = 15 := by decide
  have h1 : (ds_update ds_init [c2d]).2 = c2s1 := by
    simp [ds_update, ds_age, ds_init, ds_create, ds_emit, ds_min_hits, alset, c2s1]
  have h2 : (ds_update c2s1 [c2d]).2 = c2s2 := by
    simp [ds_update, ds_age, ds_match, ds_emit, ds_min_hits, ds_max_age,
      ds_iou_threshold, alget, alset, sortLex, insertLex, c2d, hiou, hc2, c2s1, c2s2,
      List.range_succ, List.range_zero, List.filterMap_cons, List.getD]
  have h3 : (ds_update c2s2 [c2d]).2 = c2s3 := by
    simp [ds_update, ds_age, ds_match, ds_emit, ds_min_hits, ds_max_age,
      ds_iou_threshold, alget, alset, sortLex, insertLex, c2d, hiou, hc2, c2s2, c2s3,
      List.range_succ, List.range_zero, List.filterMap_cons, List.getD,
      trailAppend, boxCenter, hfd]
  have h4 : (ds_update c2s3 []).2 = c2s4 := by
    simp [ds_update, ds_age, ds_max_age, c2s3, c2s4]
  have h5 : ds_update c2s4 [] = ([⟨c2d, 1⟩], c2s5) := by
    simp [ds_update, ds_age, ds_max_age, c2s4, c2s5]
  rw [h1, h2, h3, h4, h5]
  exact ⟨rfl, rfl⟩

/-- C2, amended: `SimpleTracker.update` does return exactly the tracks with
`hits ≥ min_hits` at the end of the update (tagged with their ids), for every
input including the empty detection list, and tracks below the threshold are
retained in state but not emitted.  `DeepSORTTracker.update` does the same
for every NONEMPTY detection list; for an empty detection list it returns
the previously emitted `last_detections` unchanged, which can mention tracks
already aged out of the state (see `C2_stale_empty_update_cex`). -/
theorem C2_confirmed_output_amended (s : STState) (dets : List Det)
    (t : DSState) (ddets : List Det) (hne : ddets ≠ []) :
    ((st_update s dets).1 = st_confirmed (st_update s dets).2 ∧
     ∀ id tr, (id, tr) ∈ (st_update s dets).1 ↔
       ((id, tr) ∈ (st_update s dets).2.tracks ∧
        (st_update s dets).2.min_hits ≤ tr.hits)) ∧
    (ds_update t ddets).1 = ds_confirmed (ds_update t ddets).2 := by
  have hst : (st_update s dets).1 = st_confirmed (st_update s dets).2 := by
    simp only [st_update]
    by_cases hd : dets.isEmpty = true
    · rw [if_pos hd]
    · rw [if_neg hd]
  refine ⟨⟨hst, ?_⟩, ?_⟩
  · intro id tr
    rw [hst]
    exact mem_st_confirmed _ id tr
  · simp only [ds_update]
    rw [if_neg (by simpa [List.isEmpty_iff] using hne)]
    simp only [ds_emit, ds_confirmed]

/-- Witness for `C2_confirmed_output_amended` at concrete inputs. -/
theorem C2_confirmed_output_witness :
    (st_update st_init [c2d]).1 = st_confirmed (st_update st_init [c2d]).2 ∧
    (ds_update ds_init [c2d]).1 = ds_confirmed (ds_update ds_init [c2d]).2 :=
  ⟨(C2_confirmed_output_amended st_init [c2d] ds_init [c2d]
      (by simp)).1.1,
   (C2_confirmed_output_amended st_init [c2d] ds_init [c2d]
      (by simp)).2⟩

/-! ## Claim C7: frame skipping -/

/-- C7: on a frame whose (incremented) counter is not a multiple of
`frame_skip`, `detect_vehicles` returns exactly the tracker's
`last_detections`, changes nothing but the frame counter (tracker, ROI,
line counters and tallies are untouched), and never forces the inference
thunk — the result is identical for any two inference oracles and frame
shapes. -/
theorem C7_frame_skip
    (fillPoly : List (Int × Int) → Int × Int → (Int → Int → Nat))
    (infer infer2 : Unit → List (List ℚ)) (s : DetectorState)
    (frame_shape frame_shape2 : Int × Int)
    (_hpos : 0 < s.frame_skip)
    (hskip : (s.frame_counter + 1) % s.frame_skip ≠ 0) :
    detect_vehicles fillPoly infer s frame_shape =
      (s.tracker.last_detections, { s with frame_counter := s.frame_counter + 1 }) ∧
    detect_vehicles fillPoly infer s frame_shape =
      detect_vehicles fillPoly infer2 s frame_shape2 := by
  constructor
  · rw [detect_vehicles, if_pos hskip]
  · rw [detect_vehicles, if_pos hskip, detect_vehicles, if_pos hskip]

/-- Witness for `C7_frame_skip`: a fresh detector with `frame_skip = 2` and
a remembered confirmed track skips its first frame and re-emits that
track. -/
theorem C7_frame_skip_witness :
    detect_vehicles (fun _ _ _ _ => 0) (fun _ => [[1, 1, 1, 1, 1, 1]])
      { cfg := default_cfg, frame_skip := 2, frame_counter := 0,
        tracker := { tracks := [], next_id := 2, track_trails := [],
                     last_detections := [⟨c2d, 1⟩] },
        roi := { use_roi := false, roi_mask := none, roi_points := [],
                 roi_original_shape := none, current_frame_shape := none,
                 roi_scale_factor := (1, 1) },
        line_counters := [], vehicle_counts := fun _ _ => 0 }
      (416, 416) =
    ([⟨c2d, 1⟩],
     { cfg := default_cfg, frame_skip := 2, frame_counter := 1,
       tracker := { tracks := [], next_id := 2, track_trails := [],
                    last_detections := [⟨c2d, 1⟩] },
       roi := { use_roi := false, roi_mask := none, roi_points := [],
                roi_original_shape := none, current_frame_shape := none,
                roi_scale_factor := (1, 1) },
       line_counters := [], vehicle_counts := fun _ _ => 0 }) :=
  (C7_frame_skip (fun _ _ _ _ => 0) (fun _ => [[1, 1, 1, 1, 1, 1]])
    (fun _ => []) _ (416, 416) (0, 0) (by decide) (by decide)).1

/-! ## Claim C9: track-id monotonicity -/

/-- All keys of the track map are below `next_id`. -/
def tracksBounded (s : STState) : Prop :=
  ∀ k ∈ s.tracks.map Prod.fst, k < s.next_id

/-- The ids `_create_track` hands out during one `update`, recovered from
the `next_id` delta: creation is the only place `next_id` changes, each
creation uses the current `next_id` and increments it. -/
def st_created (s : STState) (dets : List Det) : List Nat :=
  List.range' s.next_id ((st_update s dets).2.next_id - s.next_id)

/-- Running a session: a sequence of `update` calls. -/
def st_run (s : STState) : List (List Det) → STState
  | [] => s
  | f :: fs => st_run (st_update s f).2 fs

/-- All ids issued during a session, in creation order. -/
def st_sessionIds (s : STState) : List (List Det) → List Nat
  | [] => []
  | f :: fs => st_created s f ++ st_sessionIds (st_update s f).2 fs

lemma st_age_next (s : STState) : (st_age s).next_id = s.next_id := rfl

lemma st_create_next (s : STState) (det : Det) :
    (st_create s det).next_id = s.next_id + 1 := rfl

lemma st_update_track_next (s : STState) (id : Nat) (det : Det) :
    (st_update_track s id det).next_id = s.next_id := by
  rw [st_update_track]
  cases alget s.tracks id <;> rfl

lemma st_matchLoop_next (thr : ℚ) (tids : List Nat) (dets : List Det) :
    ∀ (fuel : Nat) (m : List (List ℚ)) (s : STState) (md : List Nat),
      (st_matchLoop thr tids dets fuel m s md).1.next_id = s.next_id := by
  intro fuel
  induction fuel with
  | zero => intro m s md; rfl
  | succ n ih =>
      intro m s md
      rw [st_matchLoop]
      by_cases h : (argmaxCell (flatCells m)).1 < thr
      · rw [if_pos h]
      · rw [if_neg h, ih, st_update_track_next]

lemma foldl_create_next (s : STState) (l : List Det) :
    (l.foldl st_create s).next_id = s.next_id + l.length := by
  induction l generalizing s with
  | nil => simp
  | cons d rest ih => simp [ih, st_create_next]; omega

lemma foldl_create_next_pairs (s : STState) (l : List (Nat × Det)) :
    (l.foldl (fun acc p => st_create acc p.2) s).next_id = s.next_id + l.length := by
  induction l generalizing s with
  | nil => simp
  | cons d rest ih => simp [ih, st_create_next]; omega

lemma st_match_next (s : STState) (dets : List Det) :
    s.next_id ≤ (st_match s dets).next_id := by
  rw [st_match]
  rw [foldl_create_next_pairs, st_matchLoop_next]
  omega

lemma st_update_next (s : STState) (dets : List Det) :
    s.next_id ≤ (st_update s dets).2.next_id := by
  rw [st_update]
  by_cases hd : dets.isEmpty = true
  · rw [if_pos hd]
    exact le_rfl
  · rw [if_neg hd]
    by_cases ht : (st_age s).tracks.isEmpty = true
    · simp only [if_pos ht]
      rw [foldl_create_next, st_age_next]
      omega
    · simp only [if_neg ht]
      exact st_match_next (st_age s) dets

lemma st_run_next (s : STState) (frames : List (List Det)) :
    s.next_id ≤ (st_run s frames).next_id := by
  induction frames generalizing s with
  | nil => exact le_rfl
  | cons f fs ih => exact le_trans (st_update_next s f) (ih _)

lemma mem_st_sessionIds (s : STState) (frames : List (List Det)) (k : Nat)
    (h : k ∈ st_sessionIds s frames) :
    s.next_id ≤ k ∧ k < (st_run s frames).next_id := by
  induction frames generalizing s with
  | nil => simp [st_sessionIds] at h
  | cons f fs ih =>
      rw [st_sessionIds, List.mem_append] at h
      rcases h with h | h
      · rw [st_created, List.mem_range'] at h
        obtain ⟨i, hi, rfl⟩ := h
        have h1 := st_update_next s f
        have h2 := st_run_next (st_update s f).2 fs
        constructor
        · omega
        · calc s.next_id + 1 * i < (st_update s f).2.next_id := by omega
            _ ≤ (st_run (st_update s f).2 fs).next_id := h2
      · have := ih _ h
        have h1 := st_update_next s f
        exact ⟨by omega, this.2⟩

lemma pairwise_lt_range' : ∀ (n a : Nat),
    List.Pairwise (fun x y => x < y) (List.range' a n)
  | 0, _ => List.Pairwise.nil
  | n + 1, a => by
      rw [show List.range' a (n + 1) = a :: List.range' (a + 1) n from rfl]
      refine List.pairwise_cons.mpr ⟨?_, pairwise_lt_range' n (a + 1)⟩
      intro b hb
      rw [List.mem_range'] at hb
      obtain ⟨i, hi, rfl⟩ := hb
      omega

lemma st_sessionIds_sorted (s : STState) (frames : List (List Det)) :
    List.Sorted (· < ·) (st_sessionIds s frames) := by
  induction frames generalizing s with
  | nil => simp [st_sessionIds]
  | cons f fs ih =>
      rw [st_sessionIds]
      refine List.pairwise_append.mpr ⟨?_, ih _, ?_⟩
      · rw [st_created]
        exact pairwise_lt_range' _ _
      · intro a ha b hb
        rw [st_created, List.mem_range'] at ha
        obtain ⟨i, hi, rfl⟩ := ha
        have := (mem_st_sessionIds _ fs b hb).1
        have h1 := st_update_next s f
        omega

lemma keys_alset {α : Type} (l : List (Nat × α)) (k : Nat) (v : α) (x : Nat)
    (hx : x ∈ (alset l k v).map Prod.fst) : x = k ∨ x ∈ l.map Prod.fst := by
  induction l with
  | nil => simpa [alset] using hx
  | cons p rest ih =>
      obtain ⟨k2, w⟩ := p
      by_cases h : k2 = k
      · simp only [alset, if_pos h, List.map_cons, List.mem_cons] at hx
        rcases hx with rfl | hx
        · exact Or.inl h
        · exact Or.inr (by simp [hx])
      · simp only [alset, if_neg h, List.map_cons, List.mem_cons] at hx
        rcases hx with rfl | hx
        · exact Or.inr (by simp)
        · rcases ih hx with rfl | hx2
          · exact Or.inl rfl
          · exact Or.inr (by simp [hx2])

lemma alget_some_mem {α : Type} {l : List (Nat × α)} {k : Nat} {v : α}
    (h : alget l k = some v) : k ∈ l.map Prod.fst := by
  induction l with
  | nil => simp [alget] at h
  | cons p rest ih =>
      obtain ⟨k2, w⟩ := p
      by_cases hk : k2 = k
      · simp [hk]
      · rw [show alget ((k2, w) :: rest) k = if k2 = k then some w else alget rest k
            from rfl, if_neg hk] at h
        simpa using Or.inr (ih h)

lemma keys_st_age (s : STState) (x : Nat)
    (hx : x ∈ (st_age s).tracks.map Prod.fst) : x ∈ s.tracks.map Prod.fst := by
  simp only [st_age] at hx
  rcases List.mem_map.mp hx with ⟨p, hp, rfl⟩
  have hp2 := List.mem_of_mem_filter hp
  rcases List.mem_map.mp hp2 with ⟨q, hq, rfl⟩
  exact List.mem_map.mpr ⟨q, hq, rfl⟩

lemma keys_update_track (s : STState) (id : Nat) (det : Det) (x : Nat)
    (hx : x ∈ (st_update_track s id det).tracks.map Prod.fst) :
    x ∈ s.tracks.map Prod.fst := by
  rw [st_update_track] at hx
  cases h : alget s.tracks id with
  | none => rw [h] at hx; exact hx
  | some t =>
      rw [h] at hx
      rcases keys_alset _ _ _ _ hx with rfl | hx2
      · exact alget_some_mem h
      · exact hx2

lemma keys_matchLoop (thr : ℚ) (tids : List Nat) (dets : List Det) :
    ∀ (fuel : Nat) (m : List (List ℚ)) (s : STState) (md : List Nat) (x : Nat),
      x ∈ (st_matchLoop thr tids dets fuel m s md).1.tracks.map Prod.fst →
      x ∈ s.tracks.map Prod.fst := by
  intro fuel
  induction fuel with
  | zero => intro m s md x hx; exact hx
  | succ n ih =>
      intro m s md x hx
      rw [st_matchLoop] at hx
      by_cases h : (argmaxCell (flatCells m)).1 < thr
      · rw [if_pos h] at hx; exact hx
      · rw [if_neg h] at hx
        exact keys_update_track _ _ _ _ (ih _ _ _ _ hx)

lemma keys_st_create (s : STState) (det : Det) (x : Nat)
    (hx : x ∈ (st_create s det).tracks.map Prod.fst) :
    x = s.next_id ∨ x ∈ s.tracks.map Prod.fst := by
  rw [st_create] at hx
  rcases keys_alset _ _ _ _ hx with rfl | h
  · exact Or.inl rfl
  · exact Or.inr h

lemma keys_foldl_create (l : List Det) : ∀ (s : STState) (x : Nat),
    x ∈ ((l.foldl st_create s).tracks.map Prod.fst) →
    x ∈ s.tracks.map Prod.fst ∨ (s.next_id ≤ x ∧ x < s.next_id + l.length) := by
  induction l with
  | nil => intro s x hx; exact Or.inl hx
  | cons p rest ih =>
      intro s x hx
      rcases ih (st_create s p) x hx with h | h
      · rcases keys_st_create _ _ _ h with rfl | h2
        · exact Or.inr ⟨le_rfl, by simp only [List.length_cons]; omega⟩
        · exact Or.inl h2
      · rw [st_create_next] at h
        exact Or.inr ⟨by omega, by simp only [List.length_cons]; omega⟩

lemma keys_foldl_create_pairs (l : List (Nat × Det)) : ∀ (s : STState) (x : Nat),
    x ∈ ((l.foldl (fun acc p => st_create acc p.2) s).tracks.map Prod.fst) →
    x ∈ s.tracks.map Prod.fst ∨ (s.next_id ≤ x ∧ x < s.next_id + l.length) := by
  induction l with
  | nil => intro s x hx; exact Or.inl hx
  | cons p rest ih =>
      intro s x hx
      rcases ih (st_create s p.2) x hx with h | h
      · rcases keys_st_create _ _ _ h with rfl | h2
        · exact Or.inr ⟨le_rfl, by simp only [List.length_cons]; omega⟩
        · exact Or.inl h2
      · rw [st_create_next] at h
        exact Or.inr ⟨by omega, by simp only [List.length_cons]; omega⟩

lemma st_update_keys (s : STState) (dets : List Det) (x : Nat)
    (hx : x ∈ (st_update s dets).2.tracks.map Prod.fst) :
    x ∈ s.tracks.map Prod.fst ∨
      (s.next_id ≤ x ∧ x < (st_update s dets).2.next_id) := by
  rw [st_update] at hx ⊢
  by_cases hd : dets.isEmpty = true
  · rw [if_pos hd] at hx ⊢
    exact Or.inl (keys_st_age _ _ hx)
  · rw [if_neg hd] at hx ⊢
    by_cases ht : (st_age s).tracks.isEmpty = true
    · simp only [if_pos ht] at hx ⊢
      rcases keys_foldl_create dets _ x hx with h | h
      · exact Or.inl (keys_st_age _ _ h)
      · rw [st_age_next] at h
        rw [foldl_create_next, st_age_next]
        exact Or.inr ⟨h.1, h.2⟩
    · simp only [if_neg ht] at hx ⊢
      simp only [st_match] at hx ⊢
      rcases keys_foldl_create_pairs _ _ x hx with h | h
      · exact Or.inl (keys_st_age _ _ (keys_matchLoop _ _ _ _ _ _ _ _ h))
      · rw [st_matchLoop_next, st_age_next] at h
        rw [foldl_create_next_pairs, st_matchLoop_next, st_age_next]
        exact Or.inr ⟨h.1, h.2⟩

/-- All keys of the DeepSORT track map are below `next_id`. -/
def dsTracksBounded (s : DSState) : Prop :=
  ∀ k ∈ s.tracks.map Prod.fst, k < s.next_id

/-- The ids `DeepSORTTracker._create_track` hands out during one `update`,
recovered from the `next_id` delta. -/
def ds_created (s : DSState) (dets : List Det) : List Nat :=
  List.range' s.next_id ((ds_update s dets).2.next_id - s.next_id)

/-- Running a DeepSORT session: a sequence of `update` calls. -/
def ds_run (s : DSState) : List (List Det) → DSState
  | [] => s
  | f :: fs => ds_run (ds_update s f).2 fs

/-- All ids issued by DeepSORT during a session, in creation order. -/
def ds_sessionIds (s : DSState) : List (List Det) → List Nat
  | [] => []
  | f :: fs => ds_created s f ++ ds_sessionIds (ds_update s f).2 fs

lemma ds_age_next (s : DSState) : (ds_age s).next_id = s.next_id := rfl

lemma ds_create_next (s : DSState) (det : Det) :
    (ds_create s det).next_id = s.next_id + 1 := rfl

lemma ds_emit_next (s : DSState) : (ds_emit s).2.next_id = s.next_id := rfl

lemma ds_emit_tracks (s : DSState) : (ds_emit s).2.tracks = s.tracks := rfl

lemma ds_foldl_create_next (s : DSState) (l : List Det) :
    (l.foldl ds_create s).next_id = s.next_id + l.length := by
  induction l generalizing s with
  | nil => simp
  | cons d rest ih => simp [ih, ds_create_next]; omega

lemma ds_foldl_create_next_pairs (s : DSState) (l : List (Nat × Det)) :
    (l.foldl (fun acc p => ds_create acc p.2) s).next_id = s.next_id + l.length := by
  induction l generalizing s with
  | nil => simp
  | cons d rest ih => simp [ih, ds_create_next]; omega

/-- The greedy-assignment fold of `_match_tracks` never touches `next_id`. -/
lemma ds_assign_next (tids : List Nat) (dets : List Det) :
    ∀ (l : List (ℚ × Nat × Nat)) (acc : DSState × List Nat × List Nat),
      ((l.foldl (fun acc m =>
        if m.2.1 ∉ acc.2.1 ∧ m.2.2 ∉ acc.2.2 then
          match alget acc.1.tracks (tids.getD m.2.1 0) with
          | none => acc
          | some t =>
              ({ acc.1 with
                  tracks := alset acc.1.tracks (tids.getD m.2.1 0)
                    ⟨dets.getD m.2.2 dummyDet, 0, t.hits + 1⟩ },
               m.2.1 :: acc.2.1, m.2.2 :: acc.2.2)
        else acc) acc).1.next_id) = acc.1.next_id := by
  intro l
  induction l with
  | nil => intro acc; rfl
  | cons m rest ih =>
      intro acc
      rw [List.foldl_cons, ih]
      by_cases h : m.2.1 ∉ acc.2.1 ∧ m.2.2 ∉ acc.2.2
      · rw [if_pos h]
        cases alget acc.1.tracks (tids.getD m.2.1 0) <;> rfl
      · rw [if_neg h]

/-- The greedy-assignment fold of `_match_tracks` only rewrites existing
track entries in place: it introduces no new track ids. -/
lemma ds_assign_keys (tids : List Nat) (dets : List Det) :
    ∀ (l : List (ℚ × Nat × Nat)) (acc : DSState × List Nat × List Nat) (x : Nat),
      x ∈ ((l.foldl (fun acc m =>
        if m.2.1 ∉ acc.2.1 ∧ m.2.2 ∉ acc.2.2 then
          match alget acc.1.tracks (tids.getD m.2.1 0) with
          | none => acc
          | some t =>
              ({ acc.1 with
                  tracks := alset acc.1.tracks (tids.getD m.2.1 0)
                    ⟨dets.getD m.2.2 dummyDet, 0, t.hits + 1⟩ },
               m.2.1 :: acc.2.1, m.2.2 :: acc.2.2)
        else acc) acc).1.tracks.map Prod.fst) →
      x ∈ acc.1.tracks.map Prod.fst := by
  intro l
  induction l with
  | nil => intro acc x hx; exact hx
  | cons m rest ih =>
      intro acc x hx
      rw [List.foldl_cons] at hx
      have hx2 := ih _ x hx
      by_cases h : m.2.1 ∉ acc.2.1 ∧ m.2.2 ∉ acc.2.2
      · rw [if_pos h] at hx2
        cases ha : alget acc.1.tracks (tids.getD m.2.1 0) with
        | none => rw [ha] at hx2; exact hx2
        | some t =>
            rw [ha] at hx2
            rcases keys_alset _ _ _ _ hx2 with rfl | h2
            · exact alget_some_mem ha
            · exact h2
      · rw [if_neg h] at hx2
        exact hx2

lemma keys_ds_age (s : DSState) (x : Nat)
    (hx : x ∈ (ds_age s).tracks.map Prod.fst) : x ∈ s.tracks.map Prod.fst := by
  simp only [ds_age] at hx
  rcases List.mem_map.mp hx with ⟨p, hp, rfl⟩
  have hp2 := List.mem_of_mem_filter hp
  rcases List.mem_map.mp hp2 with ⟨q, hq, rfl⟩
  exact List.mem_map.mpr ⟨q, hq, rfl⟩

lemma keys_ds_create (s : DSState) (det : Det) (x : Nat)
    (hx : x ∈ (ds_create s det).tracks.map Prod.fst) :
    x = s.next_id ∨ x ∈ s.tracks.map Prod.fst := by
  rw [ds_create] at hx
  rcases keys_alset _ _ _ _ hx with rfl | h
  · exact Or.inl rfl
  · exact Or.inr h

lemma keys_ds_foldl_create (l : List Det) : ∀ (s : DSState) (x : Nat),
    x ∈ ((l.foldl ds_create s).tracks.map Prod.fst) →
    x ∈ s.tracks.map Prod.fst ∨ (s.next_id ≤ x ∧ x < s.next_id + l.length) := by
  induction l with
  | nil => intro s x hx; exact Or.inl hx
  | cons p rest ih =>
      intro s x hx
      rcases ih (ds_create s p) x hx with h | h
      · rcases keys_ds_create _ _ _ h with rfl | h2
        · exact Or.inr ⟨le_rfl, by simp only [List.length_cons]; omega⟩
        · exact Or.inl h2
      · rw [ds_create_next] at h
        exact Or.inr ⟨by omega, by simp only [List.length_cons]; omega⟩

lemma keys_ds_foldl_create_pairs (l : List (Nat × Det)) : ∀ (s : DSState) (x : Nat),
    x ∈ ((l.foldl (fun acc p => ds_create acc p.2) s).tracks.map Prod.fst) →
    x ∈ s.tracks.map Prod.fst ∨ (s.next_id ≤ x ∧ x < s.next_id + l.length) := by
  induction l with
  | nil => intro s x hx; exact Or.inl hx
  | cons p rest ih =>
      intro s x hx
      rcases ih (ds_create s p.2) x hx with h | h
      · rcases keys_ds_create _ _ _ h with rfl | h2
        · exact Or.inr ⟨le_rfl, by simp only [List.length_cons]; omega⟩
        · exact Or.inl h2
      · rw [ds_create_next] at h
        exact Or.inr ⟨by omega, by simp only [List.length_cons]; omega⟩

lemma ds_match_next (s : DSState) (dets : List Det) :
    s.next_id ≤ (ds_match s dets).next_id := by
  simp only [ds_match]
  rw [ds_foldl_create_next_pairs, ds_assign_next]
  exact Nat.le_add_right _ _

lemma ds_match_keys (s : DSState) (dets : List Det) (x : Nat)
    (hx : x ∈ (ds_match s dets).tracks.map Prod.fst) :
    x ∈ s.tracks.map Prod.fst ∨
      (s.next_id ≤ x ∧ x < (ds_match s dets).next_id) := by
  simp only [ds_match] at hx ⊢
  rcases keys_ds_foldl_create_pairs _ _ x hx with h | h
  · exact Or.inl (ds_assign_keys _ _ _ _ x h)
  · rw [ds_assign_next] at h
    rw [ds_foldl_create_next_pairs, ds_assign_next]
    exact Or.inr ⟨h.1, h.2⟩

lemma ds_update_next (s : DSState) (dets : List Det) :
    s.next_id ≤ (ds_update s dets).2.next_id := by
  rw [ds_update]
  by_cases hd : dets.isEmpty = true
  · rw [if_pos hd]
    exact le_rfl
  · rw [if_neg hd]
    by_cases ht : (ds_age s).tracks.isEmpty = true
    · simp only [if_pos ht]
      rw [ds_emit_next, ds_foldl_create_next, ds_age_next]
      omega
    · simp only [if_neg ht]
      rw [ds_emit_next]
      exact ds_match_next (ds_age s) dets

lemma ds_update_keys (s : DSState) (dets : List Det) (x : Nat)
    (hx : x ∈ (ds_update s dets).2.tracks.map Prod.fst) :
    x ∈ s.tracks.map Prod.fst ∨
      (s.next_id ≤ x ∧ x < (ds_update s dets).2.next_id) := by
  rw [ds_update] at hx ⊢
  by_cases hd : dets.isEmpty = true
  · rw [if_pos hd] at hx ⊢
    exact Or.inl (keys_ds_age _ _ hx)
  · rw [if_neg hd] at hx ⊢
    by_cases ht : (ds_age s).tracks.isEmpty = true
    · simp only [if_pos ht] at hx ⊢
      rw [ds_emit_tracks] at hx
      rcases keys_ds_foldl_create dets _ x hx with h | h
      · exact Or.inl (keys_ds_age _ _ h)
      · rw [ds_age_next] at h
        rw [ds_emit_next, ds_foldl_create_next, ds_age_next]
        exact Or.inr ⟨h.1, h.2⟩
    · simp only [if_neg ht] at hx ⊢
      rw [ds_emit_tracks] at hx
      rcases ds_match_keys _ _ x hx with h | h
      · exact Or.inl (keys_ds_age _ _ h)
      · rw [ds_age_next] at h
        rw [ds_emit_next]
        exact Or.inr ⟨h.1, h.2⟩

lemma ds_run_next (s : DSState) (frames : List (List Det)) :
    s.next_id ≤ (ds_run s frames).next_id := by
  induction frames generalizing s with
  | nil => exact le_rfl
  | cons f fs ih => exact le_trans (ds_update_next s f) (ih _)

lemma mem_ds_sessionIds (s : DSState) (frames : List (List Det)) (k : Nat)
    (h : k ∈ ds_sessionIds s frames) :
    s.next_id ≤ k ∧ k < (ds_run s frames).next_id := by
  induction frames generalizing s with
  | nil => simp [ds_sessionIds] at h
  | cons f fs ih =>
      rw [ds_sessionIds, List.mem_append] at h
      rcases h with h | h
      · rw [ds_created, List.mem_range'] at h
        obtain ⟨i, hi, rfl⟩ := h
        have h1 := ds_update_next s f
        have h2 := ds_run_next (ds_update s f).2 fs
        constructor
        · omega
        · calc s.next_id + 1 * i < (ds_update s f).2.next_id := by omega
            _ ≤ (ds_run (ds_update s f).2 fs).next_id := h2
      · have := ih _ h
        have h1 := ds_update_next s f
        exact ⟨by omega, this.2⟩

lemma ds_sessionIds_sorted (s : DSState) (frames : List (List Det)) :
    List.Sorted (· < ·) (ds_sessionIds s frames) := by
  induction frames generalizing s with
  | nil => simp [ds_sessionIds]
  | cons f fs ih =>
      rw [ds_sessionIds]
      refine List.pairwise_append.mpr ⟨?_, ih _, ?_⟩
      · rw [ds_created]
        exact pairwise_lt_range' _ _
      · intro a ha b hb
        rw [ds_created, List.mem_range'] at ha
        obtain ⟨i, hi, rfl⟩ := ha
        have := (mem_ds_sessionIds _ fs b hb).1
        have h1 := ds_update_next s f
        omega

/-- C9: track-id monotonicity, for both trackers the claim cites.  For
`SimpleTracker` and for `DeepSORTTracker` alike: `next_id` never decreases
across an `update`; every track id present after an update is either an id
that already existed or a fresh id in `[next_id, next_id')` issued during
this update; track ids always stay below `next_id`; and the full list of ids
issued over any session (sequence of updates) is strictly increasing — ids
are never reused, even after tracks age out. -/
theorem C9_track_id_monotone (s : STState) (dets : List Det)
    (frames : List (List Det)) (t : DSState) (ddets : List Det)
    (dframes : List (List Det)) :
    (s.next_id ≤ (st_update s dets).2.next_id ∧
     (∀ x ∈ (st_update s dets).2.tracks.map Prod.fst,
        x ∈ s.tracks.map Prod.fst ∨
          (s.next_id ≤ x ∧ x < (st_update s dets).2.next_id)) ∧
     (tracksBounded s → tracksBounded (st_update s dets).2) ∧
     List.Sorted (· < ·) (st_sessionIds s frames)) ∧
    (t.next_id ≤ (ds_update t ddets).2.next_id ∧
     (∀ x ∈ (ds_update t ddets).2.tracks.map Prod.fst,
        x ∈ t.tracks.map Prod.fst ∨
          (t.next_id ≤ x ∧ x < (ds_update t ddets).2.next_id)) ∧
     (dsTracksBounded t → dsTracksBounded (ds_update t ddets).2) ∧
     List.Sorted (· < ·) (ds_sessionIds t dframes)) := by
  refine ⟨⟨st_update_next s dets, fun x hx => st_update_keys s dets x hx, ?_,
      st_sessionIds_sorted s frames⟩,
    ⟨ds_update_next t ddets, fun x hx => ds_update_keys t ddets x hx, ?_,
      ds_sessionIds_sorted t dframes⟩⟩
  · intro hb x hx
    rcases st_update_keys s dets x hx with h | h
    · exact lt_of_lt_of_le (hb x h) (st_update_next s dets)
    · exact h.2
  · intro hb x hx
    rcases ds_update_keys t ddets x hx with h | h
    · exact lt_of_lt_of_le (hb x h) (ds_update_next t ddets)
    · exact h.2

/-- Witness for `C9_track_id_monotone` at a concrete tracker and session
for each of the two implementations. -/
theorem C9_track_id_witness :
    tracksBounded (st_update st_init [c2d]).2 ∧
    List.Sorted (· < ·) (st_sessionIds st_init [[c2d], [], [c2d]]) ∧
    dsTracksBounded (ds_update ds_init [c2d]).2 ∧
    List.Sorted (· < ·) (ds_sessionIds ds_init [[c2d], [], [c2d]]) :=
  ⟨(C9_track_id_monotone st_init [c2d] [[c2d], [], [c2d]]
      ds_init [c2d] [[c2d], [], [c2d]]).1.2.2.1
      (by intro k hk; simp [st_init] at hk),
   (C9_track_id_monotone st_init [c2d] [[c2d], [], [c2d]]
      ds_init [c2d] [[c2d], [], [c2d]]).1.2.2.2,
   (C9_track_id_monotone st_init [c2d] [[c2d], [], [c2d]]
      ds_init [c2d] [[c2d], [], [c2d]]).2.2.2.1
      (by intro k hk; simp [ds_init] at hk),
   (C9_track_id_monotone st_init [c2d] [[c2d], [], [c2d]]
      ds_init [c2d] [[c2d], [], [c2d]]).2.2.2.2⟩

/-! ## Claim C10: well-formedness of postprocessed detections -/

/-- The detector with no active ROI. -/
def noRoi : RoiState :=
  { use_roi := false, roi_mask := none, roi_points := [],
    roi_original_shape := none, current_frame_shape := none,
    roi_scale_factor := (1, 1) }

lemma mem_sortDesc {a : Det} {l : List Det} (h : a ∈ sortDesc l) : a ∈ l := by
  induction l with
  | nil => simp [sortDesc] at h
  | cons x xs ih =>
      rw [sortDesc] at h
      rcases mem_insertDesc.mp h with rfl | h2
      · simp
      · simp [ih h2]

lemma mem_simple_nms {th : ℚ} {a : Det} {l : List Det}
    (h : a ∈ simple_nms th l) : a ∈ l := by
  rw [simple_nms] at h
  by_cases hl : l.length ≤ 1
  · rwa [if_pos hl] at h
  · rw [if_neg hl] at h
    exact mem_sortDesc ((nmsLoop_sublist th _).subset h)

lemma mem_postLoop (fillPoly : List (Int × Int) → Int × Int → (Int → Int → Nat))
    (cfg : DetCfg) (roi : RoiState) (oh ow : Int) :
    ∀ (mask : Option Mask) (cands : List Cand) (d : Det),
      d ∈ (postLoop fillPoly cfg roi oh ow mask cands).1 →
      ∃ c ∈ cands,
        d = ⟨scaleClampBox cfg oh ow c.box, c.conf, c.cls, vehicle_classes c.cls⟩ ∧
        500 ≤ ((scaleClampBox cfg oh ow c.box).x2 - (scaleClampBox cfg oh ow c.box).x1) *
              ((scaleClampBox cfg oh ow c.box).y2 - (scaleClampBox cfg oh ow c.box).y1) := by
  intro mask cands
  induction cands generalizing mask with
  | nil => intro d hd; simp [postLoop] at hd
  | cons c rest ih =>
      intro d hd
      rw [postLoop] at hd
      by_cases h1 : (roiDecision fillPoly roi oh ow mask
          (scaleClampBox cfg oh ow c.box)).2 = false
      · rw [if_pos h1] at hd
        obtain ⟨c2, hc2, he, ha⟩ := ih _ d hd
        exact ⟨c2, by simp [hc2], he, ha⟩
      · rw [if_neg h1] at hd
        by_cases h2 : ((scaleClampBox cfg oh ow c.box).x2 -
            (scaleClampBox cfg oh ow c.box).x1) *
            ((scaleClampBox cfg oh ow c.box).y2 -
             (scaleClampBox cfg oh ow c.box).y1) < 500
        · rw [if_pos h2] at hd
          obtain ⟨c2, hc2, he, ha⟩ := ih _ d hd
          exact ⟨c2, by simp [hc2], he, ha⟩
        · rw [if_neg h2] at hd
          rcases List.mem_cons.mp hd with rfl | hd2
          · exact ⟨c, by simp, rfl, by omega⟩
          · obtain ⟨c2, hc2, he, ha⟩ := ih _ d hd2
            exact ⟨c2, by simp [hc2], he, ha⟩

lemma mem_decode (cfg : DetCfg) (rows : List (List ℚ)) (c : Cand)
    (hc : c ∈ decode cfg rows) : c.cls ∈ vehicle_class_ids := by
  simp only [decode] at hc
  obtain ⟨p, hp, rfl⟩ := List.mem_map.mp hc
  have h2 := (List.mem_filter.mp hp).2
  exact of_decide_eq_true h2

lemma vehicle_classes_mem (c : Nat) (hc : c ∈ vehicle_class_ids) :
    vehicle_classes c ∈ ["car", "motorcycle", "bus", "truck"] := by
  fin_cases hc <;> simp [vehicle_classes]

lemma scaleClampBox_bounds (cfg : DetCfg) (oh ow : Int) (b : CBox)
    (h_oh : 1 ≤ oh) (h_ow : 1 ≤ ow) :
    (0 ≤ (scaleClampBox cfg oh ow b).x1 ∧ (scaleClampBox cfg oh ow b).x1 ≤ ow - 1) ∧
    (0 ≤ (scaleClampBox cfg oh ow b).y1 ∧ (scaleClampBox cfg oh ow b).y1 ≤ oh - 1) ∧
    (0 ≤ (scaleClampBox cfg oh ow b).x2 ∧ (scaleClampBox cfg oh ow b).x2 ≤ ow - 1) ∧
    (0 ≤ (scaleClampBox cfg oh ow b).y2 ∧ (scaleClampBox cfg oh ow b).y2 ≤ oh - 1) := by
  simp only [scaleClampBox]
  refine ⟨⟨le_max_left _ _, max_le (by omega) (min_le_right _ _)⟩,
          ⟨le_max_left _ _, max_le (by omega) (min_le_right _ _)⟩,
          ⟨le_max_left _ _, max_le (by omega) (min_le_right _ _)⟩,
          ⟨le_max_left _ _, max_le (by omega) (min_le_right _ _)⟩⟩

lemma area_sign (a b : Int) (h : 500 ≤ a * b) :
    (0 < a ∧ 0 < b) ∨ (a < 0 ∧ b < 0) := by
  rcases lt_trichotomy a 0 with ha | ha | ha <;>
    rcases lt_trichotomy b 0 with hb | hb | hb
  · exact Or.inr ⟨ha, hb⟩
  · exfalso; rw [hb] at h; simp at h
  · exfalso; nlinarith
  · exfalso; rw [ha] at h; simp at h
  · exfalso; rw [ha] at h; simp at h
  · exfalso; rw [ha] at h; simp at h
  · exfalso; nlinarith
  · exfalso; rw [hb] at h; simp at h
  · exact Or.inl ⟨ha, hb⟩

/-- C10, amended: every detection emitted by `postprocess_detections` has
integer coordinates clamped into the frame bounds, a class name from the
fixed vehicle table, and a box whose signed area `(x2-x1)*(y2-y1)` is at
least 500 — hence either properly ordered (`x1 < x2 ∧ y1 < y2`) or FULLY
reversed (`x2 < x1 ∧ y2 < y1`).  The claim's `x1 < x2 ∧ y1 < y2` does not
hold for every raw tensor: a row with negative width and height decodes to a
reversed box whose positive product passes the area filter
(see `C10_reversed_box_cex`). -/
theorem C10_postprocess_wellformed_amended
    (fillPoly : List (Int × Int) → Int × Int → (Int → Int → Nat))
    (cfg : DetCfg) (roi : RoiState) (rows : List (List ℚ)) (oh ow : Int)
    (h_oh : 1 ≤ oh) (h_ow : 1 ≤ ow) :
    ∀ d ∈ (postprocess_detections fillPoly cfg roi rows oh ow).1,
      (0 ≤ d.bbox.x1 ∧ d.bbox.x1 ≤ ow - 1) ∧
      (0 ≤ d.bbox.y1 ∧ d.bbox.y1 ≤ oh - 1) ∧
      (0 ≤ d.bbox.x2 ∧ d.bbox.x2 ≤ ow - 1) ∧
      (0 ≤ d.bbox.y2 ∧ d.bbox.y2 ≤ oh - 1) ∧
      d.class_name ∈ ["car", "motorcycle", "bus", "truck"] ∧
      500 ≤ (d.bbox.x2 - d.bbox.x1) * (d.bbox.y2 - d.bbox.y1) ∧
      ((d.bbox.x1 < d.bbox.x2 ∧ d.bbox.y1 < d.bbox.y2) ∨
       (d.bbox.x2 < d.bbox.x1 ∧ d.bbox.y2 < d.bbox.y1)) := by
  intro d hd
  simp only [postprocess_detections] at hd
  have hd2 : d ∈ (postLoop fillPoly cfg
      (if roi.use_roi = true then (update_roi_for_frame_shape fillPoly roi (oh, ow)).1
       else roi) oh ow
      (if roi.use_roi = true then (update_roi_for_frame_shape fillPoly roi (oh, ow)).1
       else roi).roi_mask (decode cfg rows)).1 := by
    by_cases h : 1 < (postLoop fillPoly cfg
        (if roi.use_roi = true then (update_roi_for_frame_shape fillPoly roi (oh, ow)).1
         else roi) oh ow
        (if roi.use_roi = true then (update_roi_for_frame_shape fillPoly roi (oh, ow)).1
         else roi).roi_mask (decode cfg rows)).1.length
    · rw [if_pos h] at hd
      exact mem_simple_nms hd
    · rwa [if_neg h] at hd
  obtain ⟨c, hc, rfl, harea⟩ := mem_postLoop _ _ _ _ _ _ _ _ hd2
  have hb := scaleClampBox_bounds cfg oh ow c.box h_oh h_ow
  refine ⟨hb.1, hb.2.1, hb.2.2.1, hb.2.2.2,
    vehicle_classes_mem c.cls (mem_decode cfg rows c hc), harea, ?_⟩
  rcases area_sign _ _ harea with h | h
  · exact Or.inl ⟨sub_pos.mp h.1, sub_pos.mp h.2⟩
  · exact Or.inr ⟨sub_neg.mp h.1, sub_neg.mp h.2⟩

lemma postprocess_noRoi
    (fillPoly : List (Int × Int) → Int × Int → (Int → Int → Nat))
    (cfg : DetCfg) (rows : List (List ℚ)) (oh ow : Int) :
    postprocess_detections fillPoly cfg noRoi rows oh ow =
      (if 1 < (postLoop fillPoly cfg noRoi oh ow none (decode cfg rows)).1.length
       then simple_nms cfg.nms_threshold
         (postLoop fillPoly cfg noRoi oh ow none (decode cfg rows)).1
       else (postLoop fillPoly cfg noRoi oh ow none (decode cfg rows)).1,
       { noRoi with
          roi_mask := (postLoop fillPoly cfg noRoi oh ow none (decode cfg rows)).2 }) :=
  rfl

/-- C10, counterexample to the claim as stated: the raw tensor row
`[100, 100, -100, -100, 0.9, 0, 0, 1]` has confidence 0.9 and class argmax 2
("car"), but a NEGATIVE width and height.  It decodes to the reversed box
`[150, 150, 50, 50]` whose signed area `(-100)·(-100) = 10000` passes the
`< 500` filter, so `postprocess_detections` emits a detection with
`x1 = 150 > x2 = 50`, refuting `x1 < x2`. -/
theorem C10_reversed_box_cex :
    (postprocess_detections (fun _ _ _ _ => 0) ⟨416, 416, 1 / 4, 1 / 2⟩ noRoi
        [[100, 100, -100, -100, 9 / 10, 0, 0, 1]] 416 416).1 =
      [⟨⟨150, 150, 50, 50⟩, 9 / 10, 2, "car"⟩] ∧
    ¬ (⟨⟨150, 150, 50, 50⟩, 9 / 10, 2, "car"⟩ : Det).bbox.x1 <
      (⟨⟨150, 150, 50, 50⟩, 9 / 10, 2, "car"⟩ : Det).bbox.x2 := by
  refine ⟨?_, by decide⟩
  have hb : scaleClampBox ⟨416, 416, 1 / 4, 1 / 2⟩ 416 416 ⟨100, 100, -100, -100⟩ =
      ⟨150, 150, 50, 50⟩ := by
    simp only [scaleClampBox, pyInt]
    norm_num
  have hdec : decode ⟨416, 416, 1 / 4, 1 / 2⟩ [[100, 100, -100, -100, 9 / 10, 0, 0, 1]] =
      [⟨⟨100, 100, -100, -100⟩, 9 / 10, 2⟩] := by
    have hconf : ((4 : ℚ)⁻¹ < 9 / 10) = True := by norm_num
    have h01 : ((0 : ℚ) < 0) = False := by norm_num
    have h02 : ((0 : ℚ) < 1) = True := by norm_num
    simp [decode, argmaxList, List.getD, hconf, h01, h02, vehicle_class_ids,
      List.enum, List.enumFrom]
  rw [postprocess_noRoi]
  simp only [hdec]
  rw [postLoop]
  simp only [hb]
  rw [show roiDecision (fun _ _ _ _ => 0) noRoi 416 416 none ⟨150, 150, 50, 50⟩ =
      (none, true) from rfl]
  rw [if_neg (by decide), if_neg (by decide)]
  simp [postLoop, simple_nms, vehicle_classes]

/-- Witness for `C10_postprocess_wellformed_amended`: a well-formed tensor
row yields a detection whose properties follow from the theorem at the
concrete frame shape 416×416. -/
theorem C10_postprocess_wellformed_witness :
    (0 ≤ (⟨⟨70, 70, 130, 130⟩, 9 / 10, 2, "car"⟩ : Det).bbox.x1 ∧
     (⟨⟨70, 70, 130, 130⟩, 9 / 10, 2, "car"⟩ : Det).bbox.x1 ≤ 416 - 1) ∧
    (⟨⟨70, 70, 130, 130⟩, 9 / 10, 2, "car"⟩ : Det).class_name ∈
      ["car", "motorcycle", "bus", "truck"] ∧
    500 ≤ ((⟨⟨70, 70, 130, 130⟩, 9 / 10, 2, "car"⟩ : Det).bbox.x2 -
           (⟨⟨70, 70, 130, 130⟩, 9 / 10, 2, "car"⟩ : Det).bbox.x1) *
          ((⟨⟨70, 70, 130, 130⟩, 9 / 10, 2, "car"⟩ : Det).bbox.y2 -
           (⟨⟨70, 70, 130, 130⟩, 9 / 10, 2, "car"⟩ : Det).bbox.y1) := by
  have hb : scaleClampBox ⟨416, 416, 1 / 4, 1 / 2⟩ 416 416 ⟨100, 100, 60, 60⟩ =
      ⟨70, 70, 130, 130⟩ := by
    simp only [scaleClampBox, pyInt]
    norm_num
  have hdec : decode ⟨416, 416, 1 / 4, 1 / 2⟩ [[100, 100, 60, 60, 9 / 10, 0, 0, 1]] =
      [⟨⟨100, 100, 60, 60⟩, 9 / 10, 2⟩] := by
    have hconf : ((4 : ℚ)⁻¹ < 9 / 10) = True := by norm_num
    have h01 : ((0 : ℚ) < 0) = False := by norm_num
    have h02 : ((0 : ℚ) < 1) = True := by norm_num
    simp [decode, argmaxList, List.getD, hconf, h01, h02, vehicle_class_ids,
      List.enum, List.enumFrom]
  have hout : (postprocess_detections (fun _ _ _ _ => 0) ⟨416, 416, 1 / 4, 1 / 2⟩ noRoi
      [[100, 100, 60, 60, 9 / 10, 0, 0, 1]] 416 416).1 =
      [⟨⟨70, 70, 130, 130⟩, 9 / 10, 2, "car"⟩] := by
    rw [postprocess_noRoi]
    simp only [hdec]
    rw [postLoop]
    simp only [hb]
    rw [show roiDecision (fun _ _ _ _ => 0) noRoi 416 416 none ⟨70, 70, 130, 130⟩ =
        (none, true) from rfl]
    rw [if_neg (by decide), if_neg (by decide)]
    simp [postLoop, simple_nms, vehicle_classes]
  have h := C10_postprocess_wellformed_amended (fun _ _ _ _ => 0)
    ⟨416, 416, 1 / 4, 1 / 2⟩ noRoi [[100, 100, 60, 60, 9 / 10, 0, 0, 1]] 416 416
    (by decide) (by decide) ⟨⟨70, 70, 130, 130⟩, 9 / 10, 2, "car"⟩
    (by rw [hout]; exact List.mem_singleton.mpr rfl)
  exact ⟨h.1, h.2.2.2.2.1, h.2.2.2.2.2.1⟩

end VC
